import Mathlib

/-!
Verification development for the `rust_parser` repository: financial
`Operation` records and their three codecs (binary, CSV, key-value text).

Strings are modelled as lists of Unicode scalar values (`List Nat`), byte
streams as lists of bytes (`List Nat`, each `< 256`), fallible Rust
functions as `Except ParseError`, and the `HashSet<Operation>` collections
as lists with tx_id-keyed insert-if-absent semantics.
-/

set_option maxRecDepth 100000
set_option maxHeartbeats 2000000

deriving instance DecidableEq for Except

namespace RustParser

/-- Rust `&str` / `String`, modelled as the list of Unicode scalar values. -/
abbrev Str := List Nat

/-- Conversion of a Lean string literal into the scalar-value model. -/
def S (s : String) : Str := s.data.map Char.toNat

/-- Rust `char::is_whitespace` (the Unicode `White_Space` property). -/
def isRustWhitespace (c : Nat) : Bool :=
  (9 ≤ c && c ≤ 13) || c == 32 || c == 0x85 || c == 0xA0 || c == 0x1680 ||
  (0x2000 ≤ c && c ≤ 0x200A) || c == 0x2028 || c == 0x2029 ||
  c == 0x202F || c == 0x205F || c == 0x3000

/-- Rust `str::trim`: drop whitespace from both ends. -/
def trimStr (s : Str) : Str :=
  ((s.dropWhile isRustWhitespace).reverse.dropWhile isRustWhitespace).reverse

/-- ASCII decimal digit test (Rust `char::to_digit(10)` succeeding). -/
def isDigit (c : Nat) : Bool := 48 ≤ c && c ≤ 57

/-- Decimal rendering of a `Nat`, most significant digit first; the first
argument is structural fuel, sufficient whenever `n ≤ fuel`. -/
def natToStrAux : Nat → Nat → Str
  | 0, _ => []
  | fuel + 1, n => if n < 10 then [48 + n] else natToStrAux fuel (n / 10) ++ [48 + n % 10]

/-- Rust `{}` formatting of an unsigned integer. -/
def natToStr (n : Nat) : Str := natToStrAux (n + 1) n

/-- Rust `{}` formatting of a signed integer (minus sign then magnitude). -/
def intToStr (a : Int) : Str :=
  if a < 0 then 45 :: natToStr a.natAbs else natToStr a.toNat

/-- `ParseIntError` display text for the `Empty` kind. -/
def msgEmpty : Str := S "cannot parse integer from empty string"

/-- `ParseIntError` display text for the `InvalidDigit` kind. -/
def msgInvalidDigit : Str := S "invalid digit found in string"

/-- `ParseIntError` display text for the `PosOverflow` kind. -/
def msgPosOverflow : Str := S "number too large to fit in target type"

/-- `ParseIntError` display text for the `NegOverflow` kind. -/
def msgNegOverflow : Str := S "number too small to fit in target type"

/-- Digit-accumulation loop of Rust `from_str_radix` for a non-negative
parse: each step multiplies, adds the digit, and fails with `PosOverflow`
as soon as the accumulator would reach `lim` (`2^64` for `u64`, `2^63`
for a non-negative `i64`). -/
def parseUDigits (lim : Nat) : Nat → Str → Except Str Nat
  | acc, [] => .ok acc
  | acc, c :: rest =>
      if isDigit c then
        if acc * 10 + (c - 48) < lim then parseUDigits lim (acc * 10 + (c - 48)) rest
        else .error msgPosOverflow
      else .error msgInvalidDigit

/-- Digit-accumulation loop of Rust `from_str_radix` for a negative parse:
the magnitude may reach `lim` (`2^63` for `i64`, since `i64::MIN = -2^63`),
failing with `NegOverflow` beyond it. -/
def parseNDigits (lim : Nat) : Nat → Str → Except Str Nat
  | acc, [] => .ok acc
  | acc, c :: rest =>
      if isDigit c then
        if acc * 10 + (c - 48) ≤ lim then parseNDigits lim (acc * 10 + (c - 48)) rest
        else .error msgNegOverflow
      else .error msgInvalidDigit

/-- Rust `str::parse::<u64>()`: an empty string is `Empty`; a lone sign is
`InvalidDigit`; a leading `+` is skipped; a leading `-` is not recognized
for an unsigned target (the `-` then fails as a digit). The error value is
the `ParseIntError` display text. -/
def parseU64 (s : Str) : Except Str Nat :=
  match s with
  | [] => .error msgEmpty
  | c :: rest =>
    if c = 43 then
      if rest = [] then .error msgInvalidDigit else parseUDigits (2 ^ 64) 0 rest
    else parseUDigits (2 ^ 64) 0 (c :: rest)

/-- Rust `str::parse::<i64>()`: optional `+`/`-` sign, then digits, with
`PosOverflow` above `i64::MAX` and `NegOverflow` below `i64::MIN`. -/
def parseI64 (s : Str) : Except Str Int :=
  match s with
  | [] => .error msgEmpty
  | c :: rest =>
    if c = 43 then
      if rest = [] then .error msgInvalidDigit
      else (parseUDigits (2 ^ 63) 0 rest).map (fun n => (n : Int))
    else if c = 45 then
      if rest = [] then .error msgInvalidDigit
      else (parseNDigits (2 ^ 63) 0 rest).map (fun m => -(m : Int))
    else (parseUDigits (2 ^ 63) 0 (c :: rest)).map (fun n => (n : Int))

/-- `ParseError` from `src/error.rs`. In-memory streams only ever produce
`Io` errors whose kind is `ErrorKind::UnexpectedEof` (from `read_exact` on
a too-short stream), so the `Io` variant is modelled by that single case. -/
inductive ParseError
  | ioUnexpectedEof
  | invalidFormat (msg : Str)
  | invalidField (field : Str) (reason : Str)
  | unexpectedEof
  | invalidMagic
  | invalidRecordSize
deriving DecidableEq

/-- `fmt::Display for ParseError` (scalar value 39 is the apostrophe). -/
def displayErr : ParseError → Str
  | .ioUnexpectedEof => S "IO error: failed to fill whole buffer"
  | .invalidFormat m => S "Invalid format: " ++ m
  | .invalidField f r => S "Invalid field " ++ [39] ++ f ++ [39] ++ S ": " ++ r
  | .unexpectedEof => S "Unexpected end of file"
  | .invalidMagic => S "Invalid magic header"
  | .invalidRecordSize => S "Invalid record size"

/-- `OperationType` from `src/operation.rs`. -/
inductive OperationType
  | deposit
  | transfer
  | withdrawal
deriving DecidableEq

/-- `OperationType::from_str`. -/
def OperationType.fromStr (s : Str) : Except ParseError OperationType :=
  if s = S "DEPOSIT" then .ok .deposit
  else if s = S "TRANSFER" then .ok .transfer
  else if s = S "WITHDRAWAL" then .ok .withdrawal
  else .error (.invalidField (S "TX_TYPE") (S "Unknown transaction type: " ++ s))

/-- `OperationType::from_u8`. -/
def OperationType.fromU8 (v : Nat) : Except ParseError OperationType :=
  if v = 0 then .ok .deposit
  else if v = 1 then .ok .transfer
  else if v = 2 then .ok .withdrawal
  else .error (.invalidField (S "TX_TYPE") (S "Unknown transaction type value: " ++ natToStr v))

/-- `OperationType::to_u8`. -/
def OperationType.toU8 : OperationType → Nat
  | .deposit => 0
  | .transfer => 1
  | .withdrawal => 2

/-- `OperationType::as_str`. -/
def OperationType.asStr : OperationType → Str
  | .deposit => S "DEPOSIT"
  | .transfer => S "TRANSFER"
  | .withdrawal => S "WITHDRAWAL"

/-- `OperationStatus` from `src/operation.rs`. -/
inductive OperationStatus
  | success
  | failure
  | pending
deriving DecidableEq

/-- `OperationStatus::from_str`. -/
def OperationStatus.fromStr (s : Str) : Except ParseError OperationStatus :=
  if s = S "SUCCESS" then .ok .success
  else if s = S "FAILURE" then .ok .failure
  else if s = S "PENDING" then .ok .pending
  else .error (.invalidField (S "STATUS") (S "Unknown status: " ++ s))

/-- `OperationStatus::from_u8`. -/
def OperationStatus.fromU8 (v : Nat) : Except ParseError OperationStatus :=
  if v = 0 then .ok .success
  else if v = 1 then .ok .failure
  else if v = 2 then .ok .pending
  else .error (.invalidField (S "STATUS") (S "Unknown status value: " ++ natToStr v))

/-- `OperationStatus::to_u8`. -/
def OperationStatus.toU8 : OperationStatus → Nat
  | .success => 0
  | .failure => 1
  | .pending => 2

/-- `OperationStatus::as_str`. -/
def OperationStatus.asStr : OperationStatus → Str
  | .success => S "SUCCESS"
  | .failure => S "FAILURE"
  | .pending => S "PENDING"

/-- The `Operation` record. Field widths of the Rust types (`u64`, `i64`)
are not baked into the Lean types; well-formedness is the separate
predicate `Operation.WF`. -/
structure Operation where
  tx_id : Nat
  tx_type : OperationType
  from_user_id : Nat
  to_user_id : Nat
  amount : Int
  timestamp : Nat
  status : OperationStatus
  description : Str
deriving DecidableEq

/-- `Operation::validate`. -/
def Operation.validate (op : Operation) : Except ParseError Unit :=
  match op.tx_type with
  | .deposit =>
      if op.from_user_id ≠ 0 then
        .error (.invalidField (S "FROM_USER_ID") (S "Must be 0 for DEPOSIT"))
      else .ok ()
  | .withdrawal =>
      if op.to_user_id ≠ 0 then
        .error (.invalidField (S "TO_USER_ID") (S "Must be 0 for WITHDRAWAL"))
      else .ok ()
  | .transfer =>
      if op.from_user_id = 0 ∨ op.to_user_id = 0 then
        .error (.invalidField (S "FROM_USER_ID/TO_USER_ID") (S "Cannot be 0 for TRANSFER"))
      else .ok ()

/-- `HashSet<Operation>::insert`: `PartialEq`/`Hash` for `Operation` use
only `tx_id`, and `insert` keeps the element already present, so a record
whose `tx_id` is already in the set is dropped. The list order is the
insertion order of the retained elements. -/
def insertOp (ops : List Operation) (op : Operation) : List Operation :=
  if ops.any (fun o => o.tx_id == op.tx_id) then ops else ops ++ [op]

/-- A Unicode scalar value (what a Rust `char` may hold). -/
def validScalar (c : Nat) : Bool := c < 0xD800 || (0xE000 ≤ c && c < 0x110000)

/-- UTF-8 encoding of one scalar value. -/
def utf8EncodeChar (c : Nat) : List Nat :=
  if c < 0x80 then [c]
  else if c < 0x800 then [0xC0 + c / 64, 0x80 + c % 64]
  else if c < 0x10000 then [0xE0 + c / 4096, 0x80 + c / 64 % 64, 0x80 + c % 64]
  else [0xF0 + c / 262144, 0x80 + c / 4096 % 64, 0x80 + c / 64 % 64, 0x80 + c % 64]

/-- UTF-8 encoding of a string (Rust `str::as_bytes`). -/
def utf8Encode (s : Str) : List Nat := (s.map utf8EncodeChar).flatten

/-- A UTF-8 continuation byte. -/
def isCont (b : Nat) : Bool := 0x80 ≤ b && b < 0xC0

/-- UTF-8 decoding with the validity checks of Rust `String::from_utf8`:
overlong forms, surrogates, and values above `0x10FFFF` are rejected. -/
def utf8Decode : List Nat → Option Str
  | [] => some []
  | b :: rest =>
    if b < 0x80 then (utf8Decode rest).map (b :: ·)
    else if b < 0xC2 then none
    else if 0xF5 ≤ b then none
    else
      match rest with
      | [] => none
      | b1 :: rest1 =>
        if b < 0xE0 then
          if isCont b1 then (utf8Decode rest1).map (((b - 0xC0) * 64 + (b1 - 0x80)) :: ·)
          else none
        else
          match rest1 with
          | [] => none
          | b2 :: rest2 =>
            if b < 0xF0 then
              if (if b = 0xE0 then decide (0xA0 ≤ b1) && decide (b1 < 0xC0)
                  else if b = 0xED then decide (0x80 ≤ b1) && decide (b1 < 0xA0)
                  else isCont b1) && isCont b2 then
                (utf8Decode rest2).map
                  (((b - 0xE0) * 4096 + (b1 - 0x80) * 64 + (b2 - 0x80)) :: ·)
              else none
            else
              match rest2 with
              | [] => none
              | b3 :: rest3 =>
                if (if b = 0xF0 then decide (0x90 ≤ b1) && decide (b1 < 0xC0)
                    else if b = 0xF4 then decide (0x80 ≤ b1) && decide (b1 < 0x90)
                    else isCont b1) && isCont b2 && isCont b3 then
                  (utf8Decode rest3).map
                    (((b - 0xF0) * 262144 + (b1 - 0x80) * 4096 + (b2 - 0x80) * 64 +
                      (b3 - 0x80)) :: ·)
                else none

/-- Big-endian rendering of the low `k` bytes of `n` (Rust `to_be_bytes`). -/
def toBE : Nat → Nat → List Nat
  | 0, _ => []
  | k + 1, n => toBE k (n / 256) ++ [n % 256]

/-- Rust `from_be_bytes` on an unsigned integer. -/
def fromBE (bs : List Nat) : Nat := bs.foldl (fun acc b => acc * 256 + b) 0

/-- Rust `i64::to_be_bytes`: two-complement encoding. -/
def i64ToBE (a : Int) : List Nat := toBE 8 ((a % (2 ^ 64)).toNat)

/-- Rust `i64::from_be_bytes`. -/
def i64FromBE (bs : List Nat) : Int :=
  let n := fromBE bs
  if n < 2 ^ 63 then (n : Int) else (n : Int) - 2 ^ 64

/-- A binary parser over a byte stream: the Rust shape
`fn(reader: &mut R) -> Result<A>` becomes a stream-passing function. -/
def BinP (α : Type) : Type := List Nat → Except ParseError (α × List Nat)

/-- Parser returning `a` without reading. -/
def pureP {α} (a : α) : BinP α := fun s => .ok (a, s)

/-- Parser failing with `e` (an early `return Err(e)`). -/
def failP {α} (e : ParseError) : BinP α := fun _ => .error e

/-- Sequencing of two reads (the `?` chain in the source). -/
def bindP {α β} (p : BinP α) (f : α → BinP β) : BinP β := fun s =>
  match p s with
  | .ok (a, s2) => f a s2
  | .error e => .error e

/-- `Read::read_exact` into an `n`-byte buffer: fails with an `Io` error of
kind `UnexpectedEof` when fewer than `n` bytes remain. -/
def readExact (n : Nat) : BinP (List Nat) := fun s =>
  if s.length < n then .error .ioUnexpectedEof else .ok (s.take n, s.drop n)

/-- Lift a non-reading fallible step (`?` on a pure conversion). -/
def liftE {α} (r : Except ParseError α) : BinP α := fun s =>
  match r with
  | .ok a => .ok (a, s)
  | .error e => .error e

/-- The 4 magic bytes `YPBN`. -/
def MAGIC : List Nat := [0x59, 0x50, 0x42, 0x4E]

/-- The quote-stripping step of `normalize_description`: strip one
surrounding pair of double quotes when the trimmed string starts and ends
with one and has length at least 2 (the quote is a one-byte character, so
the source's byte-length guard agrees with character count here). -/
def stripQuotes (s : Str) : Str :=
  if s.head? = some 34 ∧ s.getLast? = some 34 ∧ 2 ≤ s.length then
    (s.drop 1).dropLast
  else s

/-- `bin_format::unescape_string`: a backslash followed by a recognized
escape letter becomes the escaped character; a backslash followed by
anything else, or a trailing backslash, is kept literally and the
following character is not consumed. -/
def unescapeStr : Str → Str
  | [] => []
  | c :: rest =>
    if c = 92 then
      match rest with
      | [] => [92]
      | c2 :: rest2 =>
        if c2 = 34 then 34 :: unescapeStr rest2
        else if c2 = 92 then 92 :: unescapeStr rest2
        else if c2 = 110 then 10 :: unescapeStr rest2
        else if c2 = 116 then 9 :: unescapeStr rest2
        else if c2 = 114 then 13 :: unescapeStr rest2
        else 92 :: unescapeStr (c2 :: rest2)
    else c :: unescapeStr rest

/-- `bin_format::normalize_description`: trim, unquote once, unescape. -/
def normalizeDescription (s : Str) : Str := unescapeStr (stripQuotes (trimStr s))

/-- Final step of `bin_format::parse_operation`: construct, validate,
return. -/
def finishOp (op : Operation) : BinP Operation :=
  bindP (liftE op.validate) fun _ => pureP op

/-- `bin_format::parse_operation`. The UTF-8 failure reason embeds the
`Utf8Error` display in the source; no claim depends on that text, so it is
modelled by a fixed marker string. -/
def parseOperation : BinP Operation :=
  bindP (readExact 4) fun magic =>
  if magic ≠ MAGIC then failP .invalidMagic else
  bindP (readExact 4) fun _sizeBuf =>
  bindP (readExact 8) fun txIdB =>
  bindP (readExact 1) fun typeB =>
  bindP (liftE (OperationType.fromU8 (typeB.headD 0))) fun txType =>
  bindP (readExact 8) fun fromB =>
  bindP (readExact 8) fun toB =>
  bindP (readExact 8) fun amountB =>
  bindP (readExact 8) fun tsB =>
  bindP (readExact 1) fun statusB =>
  bindP (liftE (OperationStatus.fromU8 (statusB.headD 0))) fun status =>
  bindP (readExact 4) fun lenB =>
  bindP (readExact (fromBE lenB)) fun descBytes =>
  bindP (liftE (match utf8Decode descBytes with
    | some cs => .ok cs
    | none => .error (.invalidField (S "DESCRIPTION") (S "Invalid UTF-8"))))
    fun rawDescription =>
  finishOp
    { tx_id := fromBE txIdB
      tx_type := txType
      from_user_id := fromBE fromB
      to_user_id := fromBE toB
      amount := i64FromBE amountB
      timestamp := fromBE tsB
      status := status
      description := normalizeDescription rawDescription }

/-- `bin_format::write_operation`: validate, then emit the fixed layout.
The description is written raw (no escaping, no quoting); the length
fields are `u32` values (`as u32` truncation, wrapping `u32` sum). -/
def writeOperation (op : Operation) : Except ParseError (List Nat) :=
  match op.validate with
  | .error e => .error e
  | .ok _ =>
    let descBytes := utf8Encode op.description
    let descLen := descBytes.length % 2 ^ 32
    let recordSize := (46 + descLen) % 2 ^ 32
    .ok (MAGIC ++ toBE 4 recordSize ++ toBE 8 op.tx_id ++ [op.tx_type.toU8] ++
         toBE 8 op.from_user_id ++ toBE 8 op.to_user_id ++ i64ToBE op.amount ++
         toBE 8 op.timestamp ++ [op.status.toU8] ++ toBE 4 descLen ++ descBytes)

/-- Machine-width well-formedness: the `u64`/`i64` fields fit their Rust
types, the description is a sequence of Unicode scalar values, and its
UTF-8 byte length fits the `u32` length field of the binary layout. -/
def Operation.WF (op : Operation) : Prop :=
  op.tx_id < 2 ^ 64 ∧ op.from_user_id < 2 ^ 64 ∧ op.to_user_id < 2 ^ 64 ∧
  -(2 ^ 63) ≤ op.amount ∧ op.amount < 2 ^ 63 ∧ op.timestamp < 2 ^ 64 ∧
  (∀ c ∈ op.description, validScalar c = true) ∧
  (utf8Encode op.description).length < 2 ^ 32

instance (op : Operation) : Decidable op.WF := by
  unfold Operation.WF
  infer_instance

/-- Description class on which write-then-parse is the identity in all
three codecs: no double quote, no backslash, no line feed, and no
whitespace character at either end. -/
def safeDescB (d : Str) : Bool :=
  d.all (fun c => !(c == 34) && !(c == 92) && !(c == 10)) &&
  !((d.head?.map isRustWhitespace).getD false) &&
  !((d.getLast?.map isRustWhitespace).getD false)

/-- `p` consumes a determined prefix: on success the input splits as
`consumed ++ rest`, and the same parse replays on `consumed ++ anything`. -/
def Exact {α} (p : BinP α) : Prop :=
  ∀ s a r, p s = .ok (a, r) → ∃ c, s = c ++ r ∧ ∀ t, p (c ++ t) = .ok (a, t)

/-- On every strict prefix of an input that `p` consumes completely, `p`
fails with the end-of-stream `Io` error. -/
def EofPref {α} (p : BinP α) : Prop :=
  ∀ c a, p c = .ok (a, []) → ∀ k, k < c.length → p (c.take k) = .error .ioUnexpectedEof

/-- The two stream-discipline properties enjoyed by every parser built
from `read_exact` steps. -/
def GoodP {α} (p : BinP α) : Prop := Exact p ∧ EofPref p

/-- `read_exact` on a stream that starts with exactly the requested
chunk returns that chunk and the remainder. -/
theorem readExact_append {n : Nat} {c : List Nat} (h : c.length = n) (t : List Nat) :
    readExact n (c ++ t) = .ok (c, t) := by
  subst h
  simp only [readExact, List.length_append]
  rw [if_neg (by omega), List.take_left, List.drop_left]

theorem goodP_pure {α} (a : α) : GoodP (pureP a) := by
  constructor
  · intro s a' r h
    simp only [pureP, Except.ok.injEq, Prod.mk.injEq] at h
    exact ⟨[], by simp [h.2], fun t => by simp [pureP, h.1]⟩
  · intro c a' h k hk
    simp only [pureP, Except.ok.injEq, Prod.mk.injEq] at h
    obtain ⟨h1, h2⟩ := h
    subst h2
    simp at hk

theorem goodP_fail {α} (e : ParseError) : GoodP (failP (α := α) e) := by
  constructor
  · intro s a r h
    simp [failP] at h
  · intro c a h
    simp [failP] at h

theorem goodP_liftE {α} (r : Except ParseError α) : GoodP (liftE r) := by
  cases r with
  | ok a =>
      constructor
      · intro s a' r h
        simp only [liftE, Except.ok.injEq, Prod.mk.injEq] at h
        exact ⟨[], by simp [h.2], fun t => by simp [liftE, h.1]⟩
      · intro c a' h k hk
        simp only [liftE, Except.ok.injEq, Prod.mk.injEq] at h
        obtain ⟨h1, h2⟩ := h
        subst h2
        simp at hk
  | error e =>
      constructor
      · intro s a r h
        simp [liftE] at h
      · intro c a h
        simp [liftE] at h

theorem goodP_readExact (n : Nat) : GoodP (readExact n) := by
  constructor
  · intro s a r h
    simp only [readExact] at h
    split at h
    · exact Except.noConfusion h
    · rename_i hlen
      simp only [Except.ok.injEq, Prod.mk.injEq] at h
      refine ⟨s.take n, by rw [← h.2, List.take_append_drop], fun t => ?_⟩
      rw [readExact_append (by simp; omega) t, h.1]
  · intro c a h k hk
    simp only [readExact] at h
    split at h
    · exact Except.noConfusion h
    · rename_i hlen
      simp only [Except.ok.injEq, Prod.mk.injEq] at h
      have hd : c.length ≤ n := by
        have h2 := h.2
        have h3 : (c.drop n).length = 0 := by rw [h2]; rfl
        simp only [List.length_drop] at h3
        omega
      simp only [readExact, List.length_take]
      rw [if_pos (by omega)]

theorem goodP_bind {α β} {p : BinP α} {f : α → BinP β}
    (hp : GoodP p) (hf : ∀ a, GoodP (f a)) : GoodP (bindP p f) := by
  constructor
  · intro s b r h
    simp only [bindP] at h
    split at h
    · rename_i a s2 hps
      obtain ⟨c1, rfl, hc1⟩ := hp.1 s a s2 hps
      obtain ⟨c2, rfl, hc2⟩ := (hf a).1 s2 b r h
      refine ⟨c1 ++ c2, by simp, fun t => ?_⟩
      simp only [bindP, List.append_assoc, hc1 (c2 ++ t), hc2 t]
    · exact Except.noConfusion h
  · intro c b h k hk
    simp only [bindP] at h
    split at h
    · rename_i a s2 hps
      obtain ⟨c1, rfl, hc1⟩ := hp.1 c a s2 hps
      by_cases hkc : k < c1.length
      · have hpfx : (c1 ++ s2).take k = c1.take k := by
          rw [List.take_append_of_le_length (by omega)]
        have hc1nil : p c1 = .ok (a, []) := by
          have := hc1 []
          simpa using this
        have := hp.2 c1 a hc1nil k hkc
        simp only [bindP, hpfx, this]
      · have hpfx : (c1 ++ s2).take k = c1 ++ s2.take (k - c1.length) := by
          conv_lhs => rw [show k = c1.length + (k - c1.length) by omega]
          rw [List.take_append]
        have hs2 : p (c1 ++ s2.take (k - c1.length)) = .ok (a, s2.take (k - c1.length)) :=
          hc1 _
        have hklt : k - c1.length < s2.length := by
          simp only [List.length_append] at hk
          omega
        have := (hf a).2 s2 b h (k - c1.length) hklt
        simp only [bindP, hpfx, hs2, this]
    · exact Except.noConfusion h

theorem goodP_ite {α} (c : Prop) [Decidable c] {p q : BinP α}
    (hp : GoodP p) (hq : GoodP q) : GoodP (if c then p else q) := by
  split
  · exact hp
  · exact hq

theorem goodP_parseOperation : GoodP parseOperation := by
  unfold parseOperation finishOp
  repeat
    first
    | exact goodP_pure _
    | exact goodP_fail _
    | exact goodP_readExact _
    | exact goodP_liftE _
    | apply goodP_ite
    | apply goodP_bind
    | intro x

/-- A successful `parse_operation` consumes at least one byte. -/
theorem parseOperation_length_lt {s : List Nat} {op : Operation} {r : List Nat}
    (h : parseOperation s = .ok (op, r)) : r.length < s.length := by
  obtain ⟨c, hs, hc⟩ := goodP_parseOperation.1 s op r h
  rcases c with _ | ⟨b, c⟩
  · exfalso
    have h0 : parseOperation [] = .ok (op, []) := by simpa using hc []
    rw [show parseOperation [] = .error .ioUnexpectedEof from rfl] at h0
    exact Except.noConfusion h0
  · subst hs
    simp only [List.length_append, List.length_cons]
    omega

/-- `bin_format::parse_all`: loop `parse_operation`, stopping cleanly on an
`Io` error whose kind is `UnexpectedEof` (wherever in the record it
arises), propagating any other error, and inserting each parsed record
into the tx_id-keyed set. -/
def parseAllBinAux (s : List Nat) (acc : List Operation) :
    Except ParseError (List Operation) :=
  match h : parseOperation s with
  | .ok (op, rest) => parseAllBinAux rest (insertOp acc op)
  | .error .ioUnexpectedEof => .ok acc
  | .error e => .error e
termination_by s.length
decreasing_by exact parseOperation_length_lt h

/-- `bin_format::parse_all`, starting from the empty set. -/
def parseAllBin (s : List Nat) : Except ParseError (List Operation) :=
  parseAllBinAux s []

/-- `bin_format::write_all`: serialize each operation in iteration order. -/
def writeAllBin : List Operation → Except ParseError (List Nat)
  | [] => .ok []
  | op :: rest =>
    match writeOperation op with
    | .error e => .error e
    | .ok bs => (writeAllBin rest).map (bs ++ ·)

/-- The fixed CSV header line. -/
def HEADER : Str := S "TX_ID,TX_TYPE,FROM_USER_ID,TO_USER_ID,AMOUNT,TIMESTAMP,STATUS,DESCRIPTION"

/-- Worker for `csv_format::split_csv_line` carrying the quote toggle and
the current part (reversed). Quote characters toggle the state and stay in
the part; commas outside quotes end the part. -/
def splitCsvAux : List Nat → Bool → List Nat → List Str
  | [], _, cur => [cur.reverse]
  | c :: rest, inQ, cur =>
    if c = 34 then splitCsvAux rest (!inQ) (c :: cur)
    else if c = 44 ∧ inQ = false then cur.reverse :: splitCsvAux rest inQ []
    else splitCsvAux rest inQ (c :: cur)

/-- `csv_format::split_csv_line`. -/
def splitCsvLine (line : Str) : List Str := splitCsvAux line false []

/-- Rust `str::trim_matches('"')`: remove ALL leading and ALL trailing
occurrences of the double-quote character, each end independently. -/
def trimMatchesQuote (s : Str) : Str :=
  ((s.dropWhile (· == 34)).reverse.dropWhile (· == 34)).reverse

/-- `csv_format::parse_line`. -/
def parseLine (line : Str) : Except ParseError Operation :=
  match splitCsvLine line with
  | [p0, p1, p2, p3, p4, p5, p6, p7] =>
    (match parseU64 p0 with
     | .error r => .error (.invalidField (S "TX_ID") r)
     | .ok tx_id =>
     match OperationType.fromStr p1 with
     | .error e => .error e
     | .ok tx_type =>
     match parseU64 p2 with
     | .error r => .error (.invalidField (S "FROM_USER_ID") r)
     | .ok from_user_id =>
     match parseU64 p3 with
     | .error r => .error (.invalidField (S "TO_USER_ID") r)
     | .ok to_user_id =>
     match parseI64 p4 with
     | .error r => .error (.invalidField (S "AMOUNT") r)
     | .ok amount =>
     match parseU64 p5 with
     | .error r => .error (.invalidField (S "TIMESTAMP") r)
     | .ok timestamp =>
     match OperationStatus.fromStr p6 with
     | .error e => .error e
     | .ok status =>
       .ok { tx_id := tx_id, tx_type := tx_type, from_user_id := from_user_id
             to_user_id := to_user_id, amount := amount, timestamp := timestamp
             status := status, description := trimMatchesQuote p7 })
  | parts => .error (.invalidFormat (S "Expected 8 fields, got " ++ natToStr parts.length))

/-- Split a byte stream at every LF, keeping empty segments. -/
def splitNL : List Nat → List Str
  | [] => [[]]
  | c :: rest =>
    if c = 10 then [] :: splitNL rest
    else
      match splitNL rest with
      | [] => [[c]]
      | seg :: segs => (c :: seg) :: segs

/-- One step of Rust `BufRead::lines`: strip a single trailing CR. -/
def stripCR (l : Str) : Str := if l.getLast? = some 13 then l.dropLast else l

/-- Rust `BufRead::lines` over an in-memory buffer: split at LF; a
trailing LF yields no extra empty line; the empty input yields no lines;
one trailing CR is stripped from each line. -/
def linesOf (s : List Nat) : List Str :=
  (let segs := splitNL s
   if segs.getLast? = some [] then segs.dropLast else segs).map stripCR

/-- Loop of `csv_format::parse_all` over the data lines. `lineNum` is the
`enumerate` index (0 for the first line after the header; messages show
`lineNum + 2`); every `parse_line` error is wrapped into `InvalidFormat`,
while `validate` errors propagate unwrapped. -/
def csvGo : List Str → Nat → List Operation → Except ParseError (List Operation)
  | [], _, ops => .ok ops
  | line :: rest, lineNum, ops =>
    if trimStr line = [] then csvGo rest (lineNum + 1) ops
    else
      match parseLine line with
      | .error e =>
        .error (.invalidFormat (S "Line " ++ natToStr (lineNum + 2) ++ S ": " ++ displayErr e))
      | .ok operation =>
        match operation.validate with
        | .error e => .error e
        | .ok _ => csvGo rest (lineNum + 1) (insertOp ops operation)

/-- `csv_format::parse_all`. -/
def parseAllCsv (s : List Nat) : Except ParseError (List Operation) :=
  match linesOf s with
  | [] => .error .unexpectedEof
  | header :: rest =>
    if header ≠ HEADER then
      .error (.invalidFormat (S "Invalid CSV header. Expected: " ++ HEADER))
    else csvGo rest 0 []

/-- One CSV data line for `op`: description always quoted, never escaped. -/
def csvLineOf (op : Operation) : Str :=
  natToStr op.tx_id ++ [44] ++ op.tx_type.asStr ++ [44] ++
  natToStr op.from_user_id ++ [44] ++ natToStr op.to_user_id ++ [44] ++
  intToStr op.amount ++ [44] ++ natToStr op.timestamp ++ [44] ++
  op.status.asStr ++ [44] ++ [34] ++ op.description ++ [34]

/-- Record loop of `csv_format::write_all` (validate before each line). -/
def csvWriteGo : List Operation → Except ParseError (List Nat)
  | [] => .ok []
  | op :: rest =>
    match op.validate with
    | .error e => .error e
    | .ok _ => (csvWriteGo rest).map (fun tail => csvLineOf op ++ [10] ++ tail)

/-- `csv_format::write_all`: header line, then one line per record in
iteration order. -/
def writeAllCsv (ops : List Operation) : Except ParseError (List Nat) :=
  (csvWriteGo ops).map (fun body => HEADER ++ [10] ++ body)

/-- Association-list model of the `HashMap<String, String>` record
accumulator: insert overwrites any previous binding of the key. -/
def hmInsert (m : List (Str × Str)) (k v : Str) : List (Str × Str) :=
  (k, v) :: m.filter (fun p => !(p.1 == k))

/-- `HashMap::get`. -/
def hmGet (m : List (Str × Str)) (k : Str) : Option Str :=
  (m.find? (fun p => p.1 == k)).map (fun p => p.2)

/-- `text_format::parse_key_value` without the trims: split at the FIRST
colon; `none` when the line has no colon. -/
def splitOnceColon : Str → Option (Str × Str)
  | [] => none
  | c :: rest =>
    if c = 58 then some ([], rest)
    else (splitOnceColon rest).map (fun p => (c :: p.1, p.2))

/-- `text_format::parse_key_value`. -/
def parseKeyValue (line : Str) : Option (Str × Str) :=
  (splitOnceColon line).map (fun p => (trimStr p.1, trimStr p.2))

/-- `text_format::parse_record`: look up each required key
(`InvalidFormat` naming the key when missing), numeric failures as
`InvalidField`, description with all edge quotes stripped. -/
def parseRecord (record : List (Str × Str)) : Except ParseError Operation :=
  match hmGet record (S "TX_ID") with
  | none => .error (.invalidFormat (S "Missing TX_ID"))
  | some v0 =>
  match parseU64 v0 with
  | .error r => .error (.invalidField (S "TX_ID") r)
  | .ok tx_id =>
  match hmGet record (S "TX_TYPE") with
  | none => .error (.invalidFormat (S "Missing TX_TYPE"))
  | some v1 =>
  match OperationType.fromStr v1 with
  | .error e => .error e
  | .ok tx_type =>
  match hmGet record (S "FROM_USER_ID") with
  | none => .error (.invalidFormat (S "Missing FROM_USER_ID"))
  | some v2 =>
  match parseU64 v2 with
  | .error r => .error (.invalidField (S "FROM_USER_ID") r)
  | .ok from_user_id =>
  match hmGet record (S "TO_USER_ID") with
  | none => .error (.invalidFormat (S "Missing TO_USER_ID"))
  | some v3 =>
  match parseU64 v3 with
  | .error r => .error (.invalidField (S "TO_USER_ID") r)
  | .ok to_user_id =>
  match hmGet record (S "AMOUNT") with
  | none => .error (.invalidFormat (S "Missing AMOUNT"))
  | some v4 =>
  match parseI64 v4 with
  | .error r => .error (.invalidField (S "AMOUNT") r)
  | .ok amount =>
  match hmGet record (S "TIMESTAMP") with
  | none => .error (.invalidFormat (S "Missing TIMESTAMP"))
  | some v5 =>
  match parseU64 v5 with
  | .error r => .error (.invalidField (S "TIMESTAMP") r)
  | .ok timestamp =>
  match hmGet record (S "STATUS") with
  | none => .error (.invalidFormat (S "Missing STATUS"))
  | some v6 =>
  match OperationStatus.fromStr v6 with
  | .error e => .error e
  | .ok status =>
  match hmGet record (S "DESCRIPTION") with
  | none => .error (.invalidFormat (S "Missing DESCRIPTION"))
  | some v7 =>
    .ok { tx_id := tx_id, tx_type := tx_type, from_user_id := from_user_id
          to_user_id := to_user_id, amount := amount, timestamp := timestamp
          status := status, description := trimMatchesQuote v7 }

/-- Loop of `text_format::parse_all`: blank and `#`-comment lines are
skipped (never accumulated), but only a BLANK line (with a nonempty
current record) flushes the record; a key-value line without a colon is
silently ignored; a trailing record at end of input is flushed. -/
def textGo : List Str → List (Str × Str) → List Operation →
    Except ParseError (List Operation)
  | [], current, ops =>
    if current.isEmpty then .ok ops
    else
      match parseRecord current with
      | .error e => .error e
      | .ok operation =>
        match operation.validate with
        | .error e => .error e
        | .ok _ => .ok (insertOp ops operation)
  | line :: rest, current, ops =>
    let trimmed := trimStr line
    if trimmed = [] ∨ trimmed.head? = some 35 then
      if ¬current.isEmpty = true ∧ trimmed = [] then
        match parseRecord current with
        | .error e => .error e
        | .ok operation =>
          match operation.validate with
          | .error e => .error e
          | .ok _ => textGo rest [] (insertOp ops operation)
      else textGo rest current ops
    else
      match parseKeyValue trimmed with
      | some kv => textGo rest (hmInsert current kv.1 kv.2) ops
      | none => textGo rest current ops

/-- `text_format::parse_all`. -/
def parseAllText (s : List Nat) : Except ParseError (List Operation) :=
  textGo (linesOf s) [] []

/-- The eight `KEY: value` lines of one text block (description always
quoted, never escaped). -/
def textLinesOf (op : Operation) : List Str :=
  [S "TX_ID: " ++ natToStr op.tx_id,
   S "TX_TYPE: " ++ op.tx_type.asStr,
   S "FROM_USER_ID: " ++ natToStr op.from_user_id,
   S "TO_USER_ID: " ++ natToStr op.to_user_id,
   S "AMOUNT: " ++ intToStr op.amount,
   S "TIMESTAMP: " ++ natToStr op.timestamp,
   S "STATUS: " ++ op.status.asStr,
   S "DESCRIPTION: " ++ ([34] ++ op.description ++ [34])]

/-- One text block for `op`: each line emitted by `writeln!`, so
LF-terminated. -/
def textBlockOf (op : Operation) : List Nat :=
  ((textLinesOf op).map (fun l => l ++ [10])).flatten

/-- `text_format::write_all` loop: a blank separator line before every
block except the first, validation before each block. -/
def textWriteGo : List Operation → Bool → Except ParseError (List Nat)
  | [], _ => .ok []
  | op :: rest, isFirst =>
    match op.validate with
    | .error e => .error e
    | .ok _ =>
      (textWriteGo rest false).map (fun tail =>
        (if isFirst then [] else [10]) ++ textBlockOf op ++ tail)

/-- `text_format::write_all`. -/
def writeAllText (ops : List Operation) : Except ParseError (List Nat) :=
  textWriteGo ops true

/-- The record accumulator reached after the eight key-value lines of one
written text block have been processed. -/
def stdRecordMap (op : Operation) : List (Str × Str) :=
  hmInsert (hmInsert (hmInsert (hmInsert (hmInsert (hmInsert (hmInsert
    (hmInsert [] (S "TX_ID") (natToStr op.tx_id)) (S "TX_TYPE") op.tx_type.asStr)
    (S "FROM_USER_ID") (natToStr op.from_user_id)) (S "TO_USER_ID")
    (natToStr op.to_user_id)) (S "AMOUNT") (intToStr op.amount)) (S "TIMESTAMP")
    (natToStr op.timestamp)) (S "STATUS") op.status.asStr) (S "DESCRIPTION")
    ([34] ++ op.description ++ [34])

theorem natToStrAux_digits :
    ∀ fuel n, ∀ c ∈ natToStrAux fuel n, 48 ≤ c ∧ c ≤ 57 := by
  intro fuel
  induction fuel with
  | zero => intro n c hc; simp [natToStrAux] at hc
  | succ fuel ih =>
    intro n c hc
    simp only [natToStrAux] at hc
    split at hc
    · rename_i h10
      simp only [List.mem_singleton] at hc
      omega
    · rcases List.mem_append.mp hc with h | h
      · exact ih _ _ h
      · simp only [List.mem_singleton] at h
        have : n % 10 < 10 := Nat.mod_lt _ (by omega)
        omega

theorem natToStr_digits {n : Nat} : ∀ c ∈ natToStr n, 48 ≤ c ∧ c ≤ 57 :=
  natToStrAux_digits _ _

theorem natToStrAux_ne_nil {fuel n : Nat} : natToStrAux (fuel + 1) n ≠ [] := by
  simp only [natToStrAux]
  split
  · simp
  · simp

theorem natToStr_ne_nil {n : Nat} : natToStr n ≠ [] := natToStrAux_ne_nil

/-- Digits are not Rust whitespace. -/
theorem digit_not_whitespace {c : Nat} (h1 : 48 ≤ c) (h2 : c ≤ 57) :
    isRustWhitespace c = false := by
  simp only [isRustWhitespace, Bool.or_eq_false_iff, Bool.and_eq_false_iff,
    decide_eq_false_iff_not, beq_eq_false_iff_ne, ne_eq]
  omega

theorem parseUDigits_append {lim : Nat} :
    ∀ fuel n acc rest, n < fuel →
      acc * 10 ^ (natToStrAux fuel n).length + n < lim →
      parseUDigits lim acc (natToStrAux fuel n ++ rest) =
        parseUDigits lim (acc * 10 ^ (natToStrAux fuel n).length + n) rest := by
  intro fuel
  induction fuel with
  | zero => intro n acc rest h; omega
  | succ fuel ih =>
    intro n acc rest hn hbound
    by_cases h10 : n < 10
    · simp only [natToStrAux, if_pos h10] at hbound ⊢
      simp only [List.length_singleton, pow_one] at hbound ⊢
      simp only [List.singleton_append, parseUDigits]
      rw [if_pos (by simp [isDigit]; omega)]
      rw [if_pos (by omega)]
      congr 1
      omega
    · simp only [natToStrAux, if_neg h10] at hbound ⊢
      set A := natToStrAux fuel (n / 10) with hA
      simp only [List.length_append, List.length_singleton] at hbound ⊢
      have hpow : 10 ^ (A.length + 1) = 10 ^ A.length * 10 := by rw [pow_succ]
      have hb1 : acc * 10 ^ A.length + n / 10 < lim := by
        have e : acc * 10 ^ (A.length + 1) = 10 * (acc * 10 ^ A.length) := by
          rw [hpow]; ring
        rw [e] at hbound
        omega
      rw [List.append_assoc]
      rw [ih (n / 10) acc ([48 + n % 10] ++ rest) (by omega) hb1]
      rw [← hA]
      simp only [List.singleton_append, parseUDigits]
      rw [if_pos (by simp [isDigit]; omega)]
      have hmod : n % 10 < 10 := Nat.mod_lt _ (by omega)
      have e2 : (acc * 10 ^ A.length + n / 10) * 10 + (48 + n % 10 - 48) =
          acc * 10 ^ (A.length + 1) + n := by
        rw [hpow]
        have := Nat.div_add_mod n 10
        have h48 : 48 + n % 10 - 48 = n % 10 := by omega
        rw [h48]
        ring_nf
        omega
      rw [e2]
      rw [if_pos (by omega)]
      simp

theorem parseNDigits_append {lim : Nat} :
    ∀ fuel n acc rest, n < fuel →
      acc * 10 ^ (natToStrAux fuel n).length + n ≤ lim →
      parseNDigits lim acc (natToStrAux fuel n ++ rest) =
        parseNDigits lim (acc * 10 ^ (natToStrAux fuel n).length + n) rest := by
  intro fuel
  induction fuel with
  | zero => intro n acc rest h; omega
  | succ fuel ih =>
    intro n acc rest hn hbound
    by_cases h10 : n < 10
    · simp only [natToStrAux, if_pos h10] at hbound ⊢
      simp only [List.length_singleton, pow_one] at hbound ⊢
      simp only [List.singleton_append, parseNDigits]
      rw [if_pos (by simp [isDigit]; omega)]
      rw [if_pos (by omega)]
      congr 1
      omega
    · simp only [natToStrAux, if_neg h10] at hbound ⊢
      set A := natToStrAux fuel (n / 10) with hA
      simp only [List.length_append, List.length_singleton] at hbound ⊢
      have hpow : 10 ^ (A.length + 1) = 10 ^ A.length * 10 := by rw [pow_succ]
      have hb1 : acc * 10 ^ A.length + n / 10 ≤ lim := by
        have e : acc * 10 ^ (A.length + 1) = 10 * (acc * 10 ^ A.length) := by
          rw [hpow]; ring
        rw [e] at hbound
        omega
      rw [List.append_assoc]
      rw [ih (n / 10) acc ([48 + n % 10] ++ rest) (by omega) hb1]
      rw [← hA]
      simp only [List.singleton_append, parseNDigits]
      rw [if_pos (by simp [isDigit]; omega)]
      have hmod : n % 10 < 10 := Nat.mod_lt _ (by omega)
      have e2 : (acc * 10 ^ A.length + n / 10) * 10 + (48 + n % 10 - 48) =
          acc * 10 ^ (A.length + 1) + n := by
        rw [hpow]
        have := Nat.div_add_mod n 10
        have h48 : 48 + n % 10 - 48 = n % 10 := by omega
        rw [h48]
        ring_nf
        omega
      rw [e2]
      rw [if_pos (by omega)]
      simp

theorem parseU64_natToStr {n : Nat} (h : n < 2 ^ 64) :
    parseU64 (natToStr n) = .ok n := by
  obtain ⟨c, cs, hcs⟩ := List.exists_cons_of_ne_nil (natToStr_ne_nil (n := n))
  have hd := natToStr_digits (n := n) c (by rw [hcs]; exact List.mem_cons_self _ _)
  rw [hcs]
  simp only [parseU64]
  rw [if_neg (by omega)]
  rw [← hcs]
  unfold natToStr
  have := @parseUDigits_append (2 ^ 64) (n + 1) n 0 [] (by omega)
    (by simpa using h)
  simpa [parseUDigits] using this

theorem parseUDigits_natToStr {lim n : Nat} (h : n < lim) :
    parseUDigits lim 0 (natToStr n) = .ok n := by
  unfold natToStr
  have := @parseUDigits_append lim (n + 1) n 0 [] (by omega)
    (by simpa using h)
  simpa [parseUDigits] using this

theorem parseNDigits_natToStr {lim n : Nat} (h : n ≤ lim) :
    parseNDigits lim 0 (natToStr n) = .ok n := by
  unfold natToStr
  have := @parseNDigits_append lim (n + 1) n 0 [] (by omega)
    (by simpa using h)
  simpa [parseNDigits] using this

theorem parseI64_intToStr {a : Int} (h1 : -(2 ^ 63) ≤ a) (h2 : a < 2 ^ 63) :
    parseI64 (intToStr a) = .ok a := by
  by_cases hneg : a < 0
  · simp only [intToStr, if_pos hneg]
    simp only [parseI64]
    rw [if_neg (by omega)]
    simp only [if_true]
    rw [if_neg natToStr_ne_nil]
    have hmag : a.natAbs ≤ 2 ^ 63 := by omega
    rw [parseNDigits_natToStr hmag]
    have hval : -((a.natAbs : Nat) : Int) = a := by omega
    show Except.ok (-((a.natAbs : Nat) : Int)) = Except.ok a
    rw [hval]
  · simp only [intToStr, if_neg hneg]
    obtain ⟨c, cs, hcs⟩ := List.exists_cons_of_ne_nil (natToStr_ne_nil (n := a.toNat))
    have hd := natToStr_digits (n := a.toNat) c (by rw [hcs]; exact List.mem_cons_self _ _)
    rw [hcs]
    simp only [parseI64]
    rw [if_neg (by omega)]
    rw [if_neg (by omega)]
    rw [← hcs]
    have hlt : a.toNat < 2 ^ 63 := by omega
    rw [parseUDigits_natToStr hlt]
    have hval : ((a.toNat : Nat) : Int) = a := by omega
    show Except.ok ((a.toNat : Nat) : Int) = Except.ok a
    rw [hval]
theorem toBE_length : ∀ k n, (toBE k n).length = k := by
  intro k
  induction k with
  | zero => intro n; simp [toBE]
  | succ k ih => intro n; simp [toBE, ih]

theorem toBE_fold :
    ∀ k n acc, (toBE k n).foldl (fun acc b => acc * 256 + b) acc =
      acc * 256 ^ k + n % 256 ^ k := by
  intro k
  induction k with
  | zero => intro n acc; simp [toBE]; omega
  | succ k ih =>
    intro n acc
    simp only [toBE, List.foldl_append, ih, List.foldl_cons, List.foldl_nil]
    have h1 : n % 256 ^ (k + 1) = 256 * (n / 256 % 256 ^ k) + n % 256 := by
      rw [pow_succ, mul_comm (256 ^ k) 256, Nat.mod_mul]
      omega
    rw [h1, pow_succ]
    ring

theorem fromBE_toBE {k n : Nat} (h : n < 256 ^ k) : fromBE (toBE k n) = n := by
  unfold fromBE
  rw [toBE_fold]
  simp [Nat.mod_eq_of_lt h]

theorem i64FromBE_toBE {a : Int} (h1 : -(2 ^ 63) ≤ a) (h2 : a < 2 ^ 63) :
    i64FromBE (i64ToBE a) = a := by
  unfold i64ToBE i64FromBE
  have h64 : (2 : Int) ^ 64 = 18446744073709551616 := by norm_num
  have hpow : (256 : Nat) ^ 8 = 2 ^ 64 := by norm_num
  have hlt : ((a % (2 ^ 64)).toNat) < 256 ^ 8 := by
    rw [hpow]
    have hem1 : 0 ≤ a % (2 ^ 64) := Int.emod_nonneg a (by norm_num)
    have hem2 : a % (2 ^ 64) < 2 ^ 64 := Int.emod_lt_of_pos a (by norm_num)
    omega
  rw [fromBE_toBE hlt]
  clear hlt hpow
  show (if ((a % (2 ^ 64)).toNat) < 2 ^ 63 then (((a % (2 ^ 64)).toNat : Nat) : Int)
        else (((a % (2 ^ 64)).toNat : Nat) : Int) - 2 ^ 64) = a
  rw [h64]
  split <;> omega

theorem utf8Decode_nil : utf8Decode [] = some [] := rfl

theorem utf8Decode_one {b : Nat} (rest : List Nat) (h : b < 0x80) :
    utf8Decode (b :: rest) = (utf8Decode rest).map (b :: ·) := by
  rw [utf8Decode.eq_def]
  dsimp only
  rw [if_pos h]

theorem utf8Decode_two {b : Nat} (b1 : Nat) (rest : List Nat)
    (h1 : 0xC2 ≤ b) (h2 : b < 0xE0) :
    utf8Decode (b :: b1 :: rest) =
      if isCont b1 then (utf8Decode rest).map (((b - 0xC0) * 64 + (b1 - 0x80)) :: ·)
      else none := by
  rw [utf8Decode.eq_def]
  dsimp only
  rw [if_neg (by omega), if_neg (by omega), if_neg (by omega), if_pos (by omega)]

theorem utf8Decode_three {b : Nat} (b1 b2 : Nat) (rest : List Nat)
    (h1 : 0xE0 ≤ b) (h2 : b < 0xF0) :
    utf8Decode (b :: b1 :: b2 :: rest) =
      if (if b = 0xE0 then decide (0xA0 ≤ b1) && decide (b1 < 0xC0)
          else if b = 0xED then decide (0x80 ≤ b1) && decide (b1 < 0xA0)
          else isCont b1) && isCont b2 then
        (utf8Decode rest).map (((b - 0xE0) * 4096 + (b1 - 0x80) * 64 + (b2 - 0x80)) :: ·)
      else none := by
  rw [utf8Decode.eq_def]
  dsimp only
  rw [if_neg (by omega), if_neg (by omega), if_neg (by omega), if_neg (by omega),
    if_pos (by omega)]

theorem utf8Decode_four {b : Nat} (b1 b2 b3 : Nat) (rest : List Nat)
    (h1 : 0xF0 ≤ b) (h2 : b < 0xF5) :
    utf8Decode (b :: b1 :: b2 :: b3 :: rest) =
      if (if b = 0xF0 then decide (0x90 ≤ b1) && decide (b1 < 0xC0)
          else if b = 0xF4 then decide (0x80 ≤ b1) && decide (b1 < 0x90)
          else isCont b1) && isCont b2 && isCont b3 then
        (utf8Decode rest).map
          (((b - 0xF0) * 262144 + (b1 - 0x80) * 4096 + (b2 - 0x80) * 64 + (b3 - 0x80)) :: ·)
      else none := by
  rw [utf8Decode.eq_def]
  dsimp only
  rw [if_neg (by omega), if_neg (by omega), if_neg (by omega), if_neg (by omega),
    if_neg (by omega)]

theorem utf8Decode_encodeChar {c : Nat} (hc : validScalar c = true) (rest : List Nat) :
    utf8Decode (utf8EncodeChar c ++ rest) = (utf8Decode rest).map (fun t => c :: t) := by
  simp only [validScalar, Bool.or_eq_true, Bool.and_eq_true, decide_eq_true_eq] at hc
  by_cases h1 : c < 0x80
  · simp only [utf8EncodeChar, if_pos h1, List.singleton_append]
    rw [utf8Decode_one rest h1]
  · by_cases h2 : c < 0x800
    · simp only [utf8EncodeChar, if_neg h1, if_pos h2, List.cons_append, List.nil_append]
      rw [utf8Decode_two _ rest (by omega) (by omega)]
      rw [if_pos (by simp only [isCont, Bool.and_eq_true, decide_eq_true_eq]; omega)]
      rw [show (0xC0 + c / 64 - 0xC0) * 64 + (0x80 + c % 64 - 0x80) = c by omega]
    · by_cases h3 : c < 0x10000
      · simp only [utf8EncodeChar, if_neg h1, if_neg h2, if_pos h3, List.cons_append,
          List.nil_append]
        rw [utf8Decode_three _ _ rest (by omega) (by omega)]
        have hck : ((if 0xE0 + c / 4096 = 0xE0 then
              decide (0xA0 ≤ 0x80 + c / 64 % 64) && decide (0x80 + c / 64 % 64 < 0xC0)
            else if 0xE0 + c / 4096 = 0xED then
              decide (0x80 ≤ 0x80 + c / 64 % 64) && decide (0x80 + c / 64 % 64 < 0xA0)
            else isCont (0x80 + c / 64 % 64)) && isCont (0x80 + c % 64)) = true := by
          simp only [isCont, Bool.and_eq_true, decide_eq_true_eq]
          refine ⟨?_, by omega⟩
          split
          · rename_i hE0
            simp only [Bool.and_eq_true, decide_eq_true_eq]
            omega
          · split
            · rename_i hED
              simp only [Bool.and_eq_true, decide_eq_true_eq]
              omega
            · simp only [isCont, Bool.and_eq_true, decide_eq_true_eq]
              omega
        rw [if_pos hck]
        rw [show (0xE0 + c / 4096 - 0xE0) * 4096 + (0x80 + c / 64 % 64 - 0x80) * 64 +
              (0x80 + c % 64 - 0x80) = c by omega]
      · simp only [utf8EncodeChar, if_neg h1, if_neg h2, if_neg h3, List.cons_append,
          List.nil_append]
        rw [utf8Decode_four _ _ _ rest (by omega) (by omega)]
        have hck : ((if 0xF0 + c / 262144 = 0xF0 then
              decide (0x90 ≤ 0x80 + c / 4096 % 64) && decide (0x80 + c / 4096 % 64 < 0xC0)
            else if 0xF0 + c / 262144 = 0xF4 then
              decide (0x80 ≤ 0x80 + c / 4096 % 64) && decide (0x80 + c / 4096 % 64 < 0x90)
            else isCont (0x80 + c / 4096 % 64)) && isCont (0x80 + c / 64 % 64) &&
            isCont (0x80 + c % 64)) = true := by
          simp only [isCont, Bool.and_eq_true, decide_eq_true_eq]
          refine ⟨⟨?_, by omega⟩, by omega⟩
          split
          · rename_i hF0
            simp only [Bool.and_eq_true, decide_eq_true_eq]
            omega
          · split
            · rename_i hF4
              simp only [Bool.and_eq_true, decide_eq_true_eq]
              omega
            · simp only [isCont, Bool.and_eq_true, decide_eq_true_eq]
              omega
        rw [if_pos hck]
        rw [show (0xF0 + c / 262144 - 0xF0) * 262144 + (0x80 + c / 4096 % 64 - 0x80) * 4096 +
              (0x80 + c / 64 % 64 - 0x80) * 64 + (0x80 + c % 64 - 0x80) = c by omega]

theorem utf8Decode_encode {s : Str} (hs : ∀ c ∈ s, validScalar c = true) :
    ∀ rest, utf8Decode (utf8Encode s ++ rest) = (utf8Decode rest).map (fun t => s ++ t) := by
  induction s with
  | nil =>
    intro rest
    simp only [utf8Encode, List.map_nil, List.flatten_nil, List.nil_append]
    cases utf8Decode rest <;> simp
  | cons c cs ih =>
    intro rest
    simp only [utf8Encode, List.map_cons, List.flatten_cons, List.append_assoc]
    rw [utf8Decode_encodeChar (hs c (List.mem_cons_self _ _))]
    have ih2 := ih (fun x hx => hs x (List.mem_cons_of_mem _ hx)) rest
    simp only [utf8Encode] at ih2
    rw [ih2]
    cases utf8Decode rest <;> simp

theorem utf8Decode_utf8Encode {s : Str} (hs : ∀ c ∈ s, validScalar c = true) :
    utf8Decode (utf8Encode s) = some s := by
  have := utf8Decode_encode hs []
  simpa [utf8Decode_nil] using this

theorem dropWhile_eq_self {p : Nat → Bool} {s : Str}
    (h : ∀ c, s.head? = some c → p c = false) : s.dropWhile p = s := by
  cases s with
  | nil => rfl
  | cons c rest => simp [List.dropWhile_cons, h c rfl]

theorem trimStr_eq_self {s : Str}
    (h1 : ∀ c, s.head? = some c → isRustWhitespace c = false)
    (h2 : ∀ c, s.getLast? = some c → isRustWhitespace c = false) :
    trimStr s = s := by
  unfold trimStr
  rw [dropWhile_eq_self h1]
  rw [dropWhile_eq_self (by intro c hc; exact h2 c (by rwa [← List.head?_reverse]))]
  simp

theorem trimStr_cons_ws {c : Nat} {v : Str} (h : isRustWhitespace c = true) :
    trimStr (c :: v) = trimStr v := by
  unfold trimStr
  rw [List.dropWhile_cons, if_pos h]

theorem unescapeStr_no_backslash {s : Str} (h : ∀ c ∈ s, c ≠ 92) :
    unescapeStr s = s := by
  induction s with
  | nil => rfl
  | cons c rest ih =>
    rw [unescapeStr.eq_def]
    dsimp only
    rw [if_neg (h c (List.mem_cons_self _ _))]
    rw [ih (fun x hx => h x (List.mem_cons_of_mem _ hx))]

theorem stripQuotes_eq_self {s : Str}
    (h : ¬(s.head? = some 34 ∧ s.getLast? = some 34 ∧ 2 ≤ s.length)) :
    stripQuotes s = s := by
  unfold stripQuotes
  rw [if_neg h]

theorem safeDescB_spec {d : Str} (h : safeDescB d = true) :
    (∀ c ∈ d, c ≠ 34 ∧ c ≠ 92 ∧ c ≠ 10) ∧
    (∀ c, d.head? = some c → isRustWhitespace c = false) ∧
    (∀ c, d.getLast? = some c → isRustWhitespace c = false) := by
  simp only [safeDescB, Bool.and_eq_true] at h
  obtain ⟨⟨hall, hh⟩, hl⟩ := h
  refine ⟨?_, ?_, ?_⟩
  · intro c hc
    have := List.all_eq_true.mp hall c hc
    simp only [Bool.and_eq_true, Bool.not_eq_true', beq_eq_false_iff_ne, ne_eq] at this
    exact ⟨this.1.1, this.1.2, this.2⟩
  · intro c hc
    rw [hc] at hh
    simpa using hh
  · intro c hc
    rw [hc] at hl
    simpa using hl

theorem head?_mem {s : Str} {c : Nat} (h : s.head? = some c) : c ∈ s := by
  cases s with
  | nil => simp at h
  | cons x rest =>
    simp only [List.head?_cons, Option.some.injEq] at h
    subst h
    exact List.mem_cons_self _ _

theorem getLast?_mem {s : Str} {c : Nat} (h : s.getLast? = some c) : c ∈ s := by
  rw [← List.head?_reverse] at h
  have := head?_mem h
  simpa using this

theorem normalizeDescription_safe {d : Str} (h : safeDescB d = true) :
    normalizeDescription d = d := by
  obtain ⟨hmem, hh, hl⟩ := safeDescB_spec h
  unfold normalizeDescription
  rw [trimStr_eq_self hh hl]
  rw [stripQuotes_eq_self (by
    rintro ⟨hhead, -, -⟩
    exact absurd rfl (hmem 34 (head?_mem hhead)).1)]
  exact unescapeStr_no_backslash (fun c hc => (hmem c hc).2.1)

theorem dropWhile_quote_replicate :
    ∀ k (t : Str), (List.replicate k 34 ++ t).dropWhile (fun c => c == 34) =
      t.dropWhile (fun c => c == 34) := by
  intro k
  induction k with
  | zero => intro t; simp
  | succ k ih =>
    intro t
    rw [List.replicate_succ, List.cons_append, List.dropWhile_cons]
    simp only [beq_self_eq_true, if_true]
    exact ih t

theorem trimMatchesQuote_eq {k1 k2 : Nat} {d : Str} (hd : d ≠ [])
    (hh : d.head? ≠ some 34) (hl : d.getLast? ≠ some 34) :
    trimMatchesQuote (List.replicate k1 34 ++ d ++ List.replicate k2 34) = d := by
  unfold trimMatchesQuote
  rw [List.append_assoc, dropWhile_quote_replicate]
  have h1 : (d ++ List.replicate k2 34).dropWhile (fun c => c == 34) =
      d ++ List.replicate k2 34 := by
    apply dropWhile_eq_self
    intro c hc
    cases d with
    | nil => exact absurd rfl hd
    | cons x rest =>
      simp only [List.cons_append, List.head?_cons, Option.some.injEq] at hc
      subst hc
      simp only [beq_eq_false_iff_ne, ne_eq]
      intro e
      exact hh (by simp [e])
  rw [h1, List.reverse_append, List.reverse_replicate, dropWhile_quote_replicate]
  have h2 : d.reverse.dropWhile (fun c => c == 34) = d.reverse := by
    apply dropWhile_eq_self
    intro c hc
    rw [List.head?_reverse] at hc
    simp only [beq_eq_false_iff_ne, ne_eq]
    intro e
    subst e
    exact hl hc
  rw [h2, List.reverse_reverse]

theorem trimMatchesQuote_wrap {d : Str} (h : ∀ c ∈ d, c ≠ 34) :
    trimMatchesQuote ([34] ++ d ++ [34]) = d := by
  cases hd : d with
  | nil => rfl
  | cons c rest =>
    rw [← hd]
    have := @trimMatchesQuote_eq 1 1 d
      (by rw [hd]; simp)
      (fun hc => absurd rfl (h 34 (head?_mem hc)))
      (fun hc => absurd rfl (h 34 (getLast?_mem hc)))
    simpa using this

theorem splitCsvAux_nil (inQ : Bool) (cur : List Nat) :
    splitCsvAux [] inQ cur = [cur.reverse] := rfl

theorem splitCsvAux_quote (rest : List Nat) (inQ : Bool) (cur : List Nat) :
    splitCsvAux (34 :: rest) inQ cur = splitCsvAux rest (!inQ) (34 :: cur) := by
  rw [splitCsvAux.eq_def]
  simp

theorem splitCsvAux_comma (rest : List Nat) (cur : List Nat) :
    splitCsvAux (44 :: rest) false cur = cur.reverse :: splitCsvAux rest false [] := by
  rw [splitCsvAux.eq_def]
  simp

theorem splitCsvAux_other {c : Nat} (h34 : c ≠ 34) (h44 : c ≠ 44)
    (rest : List Nat) (inQ : Bool) (cur : List Nat) :
    splitCsvAux (c :: rest) inQ cur = splitCsvAux rest inQ (c :: cur) := by
  rw [splitCsvAux.eq_def]
  dsimp only
  rw [if_neg h34, if_neg (by simp [h44])]

theorem splitCsvAux_inQ {c : Nat} (h34 : c ≠ 34)
    (rest : List Nat) (cur : List Nat) :
    splitCsvAux (c :: rest) true cur = splitCsvAux rest true (c :: cur) := by
  rw [splitCsvAux.eq_def]
  dsimp only
  rw [if_neg h34, if_neg (by simp)]

theorem splitCsvAux_chunk {cs : List Nat} (h : ∀ c ∈ cs, c ≠ 34 ∧ c ≠ 44) :
    ∀ rest inQ cur, splitCsvAux (cs ++ rest) inQ cur =
      splitCsvAux rest inQ (cs.reverse ++ cur) := by
  induction cs with
  | nil => intro rest inQ cur; simp
  | cons c cs ih =>
    intro rest inQ cur
    have hc := h c (List.mem_cons_self _ _)
    rw [List.cons_append, splitCsvAux_other hc.1 hc.2]
    rw [ih (fun x hx => h x (List.mem_cons_of_mem _ hx))]
    simp

theorem splitCsvAux_inQ_chunk {cs : List Nat} (h : ∀ c ∈ cs, c ≠ 34) :
    ∀ rest cur, splitCsvAux (cs ++ rest) true cur =
      splitCsvAux rest true (cs.reverse ++ cur) := by
  induction cs with
  | nil => intro rest cur; simp
  | cons c cs ih =>
    intro rest cur
    rw [List.cons_append, splitCsvAux_inQ (h c (List.mem_cons_self _ _))]
    rw [ih (fun x hx => h x (List.mem_cons_of_mem _ hx))]
    simp

theorem splitNL_line : ∀ (l : Str), 10 ∉ l →
    ∀ t, splitNL (l ++ 10 :: t) = l :: splitNL t := by
  intro l
  induction l with
  | nil =>
    intro h t
    rw [List.nil_append, splitNL.eq_def]
    simp
  | cons c cs ih =>
    intro h t
    have hc : c ≠ 10 := fun e => h (e ▸ List.mem_cons_self _ _)
    rw [List.cons_append, splitNL.eq_def]
    dsimp only
    rw [if_neg hc, ih (fun hx => h (List.mem_cons_of_mem _ hx))]

theorem splitNL_noNL : ∀ (l : Str), 10 ∉ l → splitNL l = [l] := by
  intro l
  induction l with
  | nil => intro h; rfl
  | cons c cs ih =>
    intro h
    have hc : c ≠ 10 := fun e => h (e ▸ List.mem_cons_self _ _)
    rw [splitNL.eq_def]
    dsimp only
    rw [if_neg hc, ih (fun hx => h (List.mem_cons_of_mem _ hx))]

theorem stripCR_eq_self {l : Str} (h : l.getLast? ≠ some 13) : stripCR l = l := by
  unfold stripCR
  rw [if_neg h]

/-- `lines` of a buffer written as newline-terminated lines (none of which
contains a LF or ends in a CR) is exactly that list of lines. -/
theorem linesOf_concat {ls : List Str}
    (h : ∀ l ∈ ls, 10 ∉ l ∧ l.getLast? ≠ some 13) :
    linesOf ((ls.map (fun l => l ++ [10])).flatten) = ls := by
  have key : ∀ (ls : List Str), (∀ l ∈ ls, 10 ∉ l) →
      splitNL ((ls.map (fun l => l ++ [10])).flatten) = ls ++ [[]] := by
    intro ls
    induction ls with
    | nil => intro h2; rfl
    | cons l rest ih =>
      intro h2
      simp only [List.map_cons, List.flatten_cons, List.append_assoc,
        List.singleton_append]
      rw [splitNL_line l (h2 l (List.mem_cons_self _ _))]
      rw [ih (fun x hx => h2 x (List.mem_cons_of_mem _ hx))]
      rfl
  unfold linesOf
  rw [key ls (fun l hl => (h l hl).1)]
  rw [if_pos (by rw [List.getLast?_concat])]
  rw [List.dropLast_concat]
  conv_rhs => rw [← List.map_id ls]
  apply List.map_congr_left
  intro l hl
  exact stripCR_eq_self (h l hl).2

theorem splitOnceColon_append {k : Str} (h : 58 ∉ k) :
    ∀ v, splitOnceColon (k ++ 58 :: v) = some (k, v) := by
  induction k with
  | nil =>
    intro v
    rw [List.nil_append, splitOnceColon.eq_def]
    simp
  | cons c cs ih =>
    intro v
    have hc : c ≠ 58 := fun e => h (e ▸ List.mem_cons_self _ _)
    rw [List.cons_append, splitOnceColon.eq_def]
    dsimp only
    rw [if_neg hc, ih (fun hx => h (List.mem_cons_of_mem _ hx))]
    rfl

theorem hmGet_insert_same (m : List (Str × Str)) (k v : Str) :
    hmGet (hmInsert m k v) k = some v := by
  simp [hmGet, hmInsert, List.find?_cons]

theorem hmGet_insert_ne {k2 k : Str} (h : k2 ≠ k) (m : List (Str × Str)) (v : Str) :
    hmGet (hmInsert m k v) k2 = hmGet m k2 := by
  simp only [hmGet, hmInsert]
  rw [List.find?_cons_of_neg _ (by
    simp only [beq_iff_eq]
    exact fun e => h e.symm)]
  congr 1
  induction m with
  | nil => rfl
  | cons a m ih =>
    by_cases hk : a.1 = k
    · rw [List.filter_cons, if_neg (by simp [hk])]
      rw [ih]
      rw [List.find?_cons_of_neg _ (by
        simp only [beq_iff_eq, hk]
        exact fun e => h e.symm)]
    · rw [List.filter_cons, if_pos (by simp [hk])]
      by_cases hk2 : a.1 = k2
      · rw [List.find?_cons_of_pos _ (by simp [hk2]),
          List.find?_cons_of_pos _ (by simp [hk2])]
      · rw [List.find?_cons_of_neg _ (by simp [hk2]),
          List.find?_cons_of_neg _ (by simp [hk2])]
        exact ih

theorem bindP_readExact {β : Type} {n : Nat} {c : List Nat} (h : c.length = n)
    (f : List Nat → BinP β) (t : List Nat) :
    bindP (readExact n) f (c ++ t) = f c t := by
  simp only [bindP, readExact_append h]

theorem bindP_liftE_ok {α β : Type} {r : Except ParseError α} {a : α} (h : r = .ok a)
    (f : α → BinP β) (s : List Nat) : bindP (liftE r) f s = f a s := by
  subst h
  simp [bindP, liftE]

theorem fromU8_toU8 (t : OperationType) : OperationType.fromU8 t.toU8 = .ok t := by
  cases t <;> rfl

theorem statusFromU8_toU8 (t : OperationStatus) : OperationStatus.fromU8 t.toU8 = .ok t := by
  cases t <;> rfl

theorem fromStr_asStr (t : OperationType) : OperationType.fromStr t.asStr = .ok t := by
  cases t <;> decide

theorem statusFromStr_asStr (t : OperationStatus) :
    OperationStatus.fromStr t.asStr = .ok t := by
  cases t <;> decide

theorem writeOperation_ok {op : Operation} (hval : op.validate = .ok ()) :
    writeOperation op = .ok (
      MAGIC ++ toBE 4 ((46 + (utf8Encode op.description).length % 2 ^ 32) % 2 ^ 32) ++
      toBE 8 op.tx_id ++ [op.tx_type.toU8] ++ toBE 8 op.from_user_id ++
      toBE 8 op.to_user_id ++ i64ToBE op.amount ++ toBE 8 op.timestamp ++
      [op.status.toU8] ++ toBE 4 ((utf8Encode op.description).length % 2 ^ 32) ++
      utf8Encode op.description) := by
  unfold writeOperation
  rw [hval]

theorem bindP_readExact_magic {β : Type} (f : List Nat → BinP β) (t : List Nat) :
    bindP (readExact 4) f (MAGIC ++ t) = f MAGIC t :=
  bindP_readExact (show MAGIC.length = 4 from rfl) f t

theorem bindP_readExact_toBE {β : Type} (k n : Nat) (f : List Nat → BinP β) (t : List Nat) :
    bindP (readExact k) f (toBE k n ++ t) = f (toBE k n) t :=
  bindP_readExact (toBE_length k n) f t

theorem bindP_readExact_one {β : Type} (x : Nat) (f : List Nat → BinP β) (t : List Nat) :
    bindP (readExact 1) f ([x] ++ t) = f [x] t :=
  bindP_readExact (show ([x] : List Nat).length = 1 from rfl) f t

theorem bindP_readExact_self {β : Type} (c : List Nat) (f : List Nat → BinP β) (t : List Nat) :
    bindP (readExact c.length) f (c ++ t) = f c t :=
  bindP_readExact rfl f t

theorem bindP_pureE {α β : Type} (a : α) (f : α → BinP β) (s : List Nat) :
    bindP (liftE (.ok a)) f s = f a s := by
  simp [bindP, liftE]

/-- The byte stream produced by `write_operation`, followed by anything,
parses back to the original operation with that remainder: the description
is written raw and, being `safeDescB`, normalization is the identity on it. -/
theorem parseOperation_write {op : Operation} (hWF : op.WF) (hval : op.validate = .ok ())
    (hsafe : safeDescB op.description = true) {bs : List Nat}
    (hbs : writeOperation op = .ok bs) (t : List Nat) :
    parseOperation (bs ++ t) = .ok (op, t) := by
  obtain ⟨hw1, hw2, hw3, hw4, hw5, hw6, hw7, hw8⟩ := hWF
  rw [writeOperation_ok hval] at hbs
  injection hbs with hbs2
  subst hbs2
  have h2pow : (256 : Nat) ^ 8 = 2 ^ 64 := by norm_num
  have h4pow : (256 : Nat) ^ 4 = 2 ^ 32 := by norm_num
  have hlen : (utf8Encode op.description).length % 2 ^ 32 =
      (utf8Encode op.description).length := Nat.mod_eq_of_lt hw8
  have hfb1 : fromBE (toBE 8 op.tx_id) = op.tx_id := fromBE_toBE (by omega)
  have hfb2 : fromBE (toBE 8 op.from_user_id) = op.from_user_id := fromBE_toBE (by omega)
  have hfb3 : fromBE (toBE 8 op.to_user_id) = op.to_user_id := fromBE_toBE (by omega)
  have hfb4 : fromBE (toBE 8 op.timestamp) = op.timestamp := fromBE_toBE (by omega)
  have hfb5 : fromBE (toBE 4 (utf8Encode op.description).length) =
      (utf8Encode op.description).length := fromBE_toBE (by omega)
  have hamount : i64FromBE (toBE 8 ((op.amount % 2 ^ 64).toNat)) = op.amount :=
    i64FromBE_toBE hw4 hw5
  have heta : (⟨op.tx_id, op.tx_type, op.from_user_id, op.to_user_id, op.amount,
      op.timestamp, op.status, op.description⟩ : Operation) = op := rfl
  rw [hlen]
  simp only [parseOperation, i64ToBE, List.append_assoc]
  simp only [bindP_readExact_magic, if_neg (show ¬MAGIC ≠ MAGIC by simp),
    bindP_readExact_toBE, bindP_readExact_one, bindP_readExact_self,
    List.headD_cons, fromU8_toU8, statusFromU8_toU8, bindP_pureE, hfb5]
  simp only [bindP_readExact_self, utf8Decode_utf8Encode hw7, bindP_pureE]
  simp only [hfb1, hfb2, hfb3, hfb4, hamount, normalizeDescription_safe hsafe]
  simp only [finishOp, heta, hval, bindP_pureE]
  rfl

theorem asStr_chars (t : OperationType) : ∀ c ∈ t.asStr, 65 ≤ c ∧ c ≤ 90 := by
  cases t <;> decide

theorem statusAsStr_chars (t : OperationStatus) : ∀ c ∈ t.asStr, 65 ≤ c ∧ c ≤ 90 := by
  cases t <;> decide

theorem intToStr_chars {a : Int} : ∀ c ∈ intToStr a, c = 45 ∨ (48 ≤ c ∧ c ≤ 57) := by
  unfold intToStr
  split
  · intro c hc
    rcases List.mem_cons.mp hc with h | h
    · exact Or.inl h
    · exact Or.inr (natToStr_digits _ h)
  · intro c hc
    exact Or.inr (natToStr_digits _ hc)

theorem trimStr_ne_nil {c : Nat} {rest : Str} (h : isRustWhitespace c = false) :
    trimStr (c :: rest) ≠ [] := by
  unfold trimStr
  rw [List.dropWhile_cons, if_neg (by simp [h])]
  intro he
  have h2 : (c :: rest).reverse.dropWhile isRustWhitespace = [] := by
    have := congrArg List.reverse he
    simpa using this
  rw [List.dropWhile_eq_nil_iff] at h2
  have := h2 c (by simp)
  rw [h] at this
  exact Bool.noConfusion this

theorem splitCsv_field {p : Str} (hp : ∀ c ∈ p, c ≠ 34 ∧ c ≠ 44) (rest : List Nat) :
    splitCsvAux (p ++ 44 :: rest) false [] = p :: splitCsvAux rest false [] := by
  rw [splitCsvAux_chunk hp, splitCsvAux_comma]
  simp

theorem splitCsv_lastField {d : Str} (hd : ∀ c ∈ d, c ≠ 34) :
    splitCsvAux (34 :: (d ++ [34])) false [] = [34 :: (d ++ [34])] := by
  rw [splitCsvAux_quote]
  simp only [Bool.not_false]
  rw [splitCsvAux_inQ_chunk hd, splitCsvAux_quote, splitCsvAux_nil]
  simp

theorem splitCsvLine_csvLineOf {op : Operation} (hsafe : safeDescB op.description = true) :
    splitCsvLine (csvLineOf op) =
      [natToStr op.tx_id, op.tx_type.asStr, natToStr op.from_user_id,
       natToStr op.to_user_id, intToStr op.amount, natToStr op.timestamp,
       op.status.asStr, 34 :: (op.description ++ [34])] := by
  obtain ⟨hmem, -, -⟩ := safeDescB_spec hsafe
  have hdig : ∀ n : Nat, ∀ c ∈ natToStr n, c ≠ 34 ∧ c ≠ 44 := by
    intro n c hc
    have := natToStr_digits (n := n) c hc
    omega
  have hlab : ∀ c ∈ op.tx_type.asStr, c ≠ 34 ∧ c ≠ 44 := by
    intro c hc
    have := asStr_chars op.tx_type c hc
    omega
  have hlab2 : ∀ c ∈ op.status.asStr, c ≠ 34 ∧ c ≠ 44 := by
    intro c hc
    have := statusAsStr_chars op.status c hc
    omega
  have hint : ∀ c ∈ intToStr op.amount, c ≠ 34 ∧ c ≠ 44 := by
    intro c hc
    rcases intToStr_chars c hc with h | h <;> omega
  unfold splitCsvLine csvLineOf
  simp only [List.append_assoc, List.singleton_append, List.cons_append, List.nil_append]
  rw [splitCsv_field (hdig _), splitCsv_field hlab, splitCsv_field (hdig _),
    splitCsv_field (hdig _), splitCsv_field hint, splitCsv_field (hdig _),
    splitCsv_field hlab2, splitCsv_lastField (fun c hc => (hmem c hc).1)]

theorem parseLine_csvLineOf {op : Operation} (hWF : op.WF)
    (hsafe : safeDescB op.description = true) :
    parseLine (csvLineOf op) = .ok op := by
  obtain ⟨hw1, hw2, hw3, hw4, hw5, hw6, hw7, hw8⟩ := hWF
  obtain ⟨hmem, -, -⟩ := safeDescB_spec hsafe
  unfold parseLine
  rw [splitCsvLine_csvLineOf hsafe]
  dsimp only
  rw [parseU64_natToStr hw1, fromStr_asStr, parseU64_natToStr hw2, parseU64_natToStr hw3,
    parseI64_intToStr hw4 hw5, parseU64_natToStr hw6, statusFromStr_asStr]
  have hq : trimMatchesQuote (34 :: (op.description ++ [34])) = op.description := by
    have := @trimMatchesQuote_wrap op.description (fun c hc => (hmem c hc).1)
    simpa using this
  rw [hq]

theorem csvLineOf_no10 {op : Operation} (hsafe : safeDescB op.description = true) :
    ∀ c ∈ csvLineOf op, c ≠ 10 := by
  obtain ⟨hmem, -, -⟩ := safeDescB_spec hsafe
  intro c hc
  unfold csvLineOf at hc
  simp only [List.mem_append, List.mem_singleton] at hc
  repeat' rcases hc with hc | hc
  all_goals first
    | omega
    | (have hd9 := natToStr_digits _ hc; omega)
    | (have hd9 := asStr_chars op.tx_type _ hc; omega)
    | (have hd9 := statusAsStr_chars op.status _ hc; omega)
    | (rcases intToStr_chars _ hc with h2 | h2 <;> omega)
    | exact (hmem c hc).2.2

theorem csvLineOf_getLast {op : Operation} : (csvLineOf op).getLast? = some 34 := by
  unfold csvLineOf
  rw [List.getLast?_concat]

theorem csvWrite_singleton {op : Operation} (hval : op.validate = .ok ()) :
    writeAllCsv [op] = .ok (HEADER ++ [10] ++ (csvLineOf op ++ [10])) := by
  unfold writeAllCsv csvWriteGo
  rw [hval]
  simp only [csvWriteGo, Except.map, List.append_nil, List.append_assoc]

theorem linesOf_csv {op : Operation} (hsafe : safeDescB op.description = true) :
    linesOf (HEADER ++ [10] ++ (csvLineOf op ++ [10])) = [HEADER, csvLineOf op] := by
  rw [show HEADER ++ [10] ++ (csvLineOf op ++ [10]) =
      (([HEADER, csvLineOf op]).map (fun l => l ++ [10])).flatten by simp]
  apply linesOf_concat
  intro l hl
  rcases List.mem_cons.mp hl with rfl | hl2
  · exact ⟨by decide, by decide⟩
  · rcases List.mem_cons.mp hl2 with rfl | hl3
    · refine ⟨fun h => csvLineOf_no10 hsafe 10 h rfl, ?_⟩
      rw [csvLineOf_getLast]
      simp
    · simp at hl3

theorem trimStr_eq_self_of_chars {s : Str}
    (h : ∀ c ∈ s, isRustWhitespace c = false) : trimStr s = s :=
  trimStr_eq_self (fun c hc => h c (head?_mem hc)) (fun c hc => h c (getLast?_mem hc))

theorem csvGo_nil (n : Nat) (ops : List Operation) : csvGo [] n ops = .ok ops := rfl

theorem parseAllCsv_single {op : Operation} (hWF : op.WF) (hval : op.validate = .ok ())
    (hsafe : safeDescB op.description = true) :
    parseAllCsv (HEADER ++ [10] ++ (csvLineOf op ++ [10])) = .ok [op] := by
  unfold parseAllCsv
  rw [linesOf_csv hsafe]
  dsimp only
  rw [if_neg (by simp)]
  have htrimne : ¬ trimStr (csvLineOf op) = [] := by
    obtain ⟨c, cs, hcs⟩ := List.exists_cons_of_ne_nil (natToStr_ne_nil (n := op.tx_id))
    have hd := natToStr_digits (n := op.tx_id) c (by rw [hcs]; exact List.mem_cons_self _ _)
    unfold csvLineOf
    rw [hcs]
    simp only [List.cons_append, List.append_assoc]
    exact trimStr_ne_nil (digit_not_whitespace hd.1 hd.2)
  rw [csvGo.eq_def]
  dsimp only
  rw [if_neg htrimne, parseLine_csvLineOf hWF hsafe]
  dsimp only
  rw [hval]
  dsimp only
  rw [csvGo_nil]
  simp [insertOp]

theorem parseKeyValue_mk {k v : Str} (hk : 58 ∉ k) (hkt : trimStr k = k)
    (hvt : trimStr v = v) :
    parseKeyValue (k ++ 58 :: 32 :: v) = some (k, v) := by
  unfold parseKeyValue
  rw [splitOnceColon_append hk]
  simp only [Option.map_some']
  rw [trimStr_cons_ws (by decide), hkt, hvt]

theorem textLine_kv {pre key v : Str} (hpre : pre = key ++ 58 :: [32])
    (hk58 : 58 ∉ key) (hkt : trimStr key = key) (hvt : trimStr v = v) :
    parseKeyValue (pre ++ v) = some (key, v) := by
  subst hpre
  simp only [List.append_assoc, List.cons_append, List.singleton_append]
  exact parseKeyValue_mk hk58 hkt hvt

theorem textLine_trim {pre v : Str} {c0 : Nat} (hhead : pre.head? = some c0)
    (hc0 : isRustWhitespace c0 = false)
    (hvlast : ∀ c, v.getLast? = some c → isRustWhitespace c = false)
    (hvne : v ≠ []) : trimStr (pre ++ v) = pre ++ v := by
  have hprene : pre ≠ [] := by
    intro e
    rw [e] at hhead
    exact Option.noConfusion hhead
  apply trimStr_eq_self
  · intro c hc
    rw [List.head?_append_of_ne_nil _ hprene, hhead] at hc
    injection hc with hc
    subst hc
    exact hc0
  · intro c hc
    rw [List.getLast?_append_of_ne_nil _ hvne] at hc
    exact hvlast c hc

theorem textLine_head {pre v : Str} {c0 : Nat} (hhead : pre.head? = some c0) :
    (pre ++ v).head? = some c0 := by
  have hprene : pre ≠ [] := by
    intro e
    rw [e] at hhead
    exact Option.noConfusion hhead
  rw [List.head?_append_of_ne_nil _ hprene]
  exact hhead

theorem textGo_kv {line k v : Str} (hne : trimStr line ≠ [])
    (hhash : (trimStr line).head? ≠ some 35)
    (hkv : parseKeyValue (trimStr line) = some (k, v))
    (rest : List Str) (cur : List (Str × Str)) (ops : List Operation) :
    textGo (line :: rest) cur ops = textGo rest (hmInsert cur k v) ops := by
  rw [textGo.eq_def]
  dsimp only
  rw [if_neg (by
    rintro (h | h)
    · exact hne h
    · exact hhash h)]
  rw [hkv]

theorem textWrite_singleton {op : Operation} (hval : op.validate = .ok ()) :
    writeAllText [op] = .ok (textBlockOf op) := by
  unfold writeAllText textWriteGo
  rw [hval]
  simp [textWriteGo, Except.map]

theorem natToStr_getLast_not_ws {n : Nat} :
    ∀ c, (natToStr n).getLast? = some c → isRustWhitespace c = false := by
  intro c hc
  have := natToStr_digits (n := n) c (getLast?_mem hc)
  exact digit_not_whitespace this.1 this.2

theorem letter_not_whitespace {c : Nat} (h1 : 65 ≤ c) (h2 : c ≤ 90) :
    isRustWhitespace c = false := by
  simp only [isRustWhitespace, Bool.or_eq_false_iff, Bool.and_eq_false_iff,
    decide_eq_false_iff_not, beq_eq_false_iff_ne, ne_eq]
  omega

theorem asStr_getLast_not_ws {t : OperationType} :
    ∀ c, t.asStr.getLast? = some c → isRustWhitespace c = false := by
  intro c hc
  have := asStr_chars t c (getLast?_mem hc)
  exact letter_not_whitespace this.1 this.2

theorem statusAsStr_getLast_not_ws {t : OperationStatus} :
    ∀ c, t.asStr.getLast? = some c → isRustWhitespace c = false := by
  intro c hc
  have := statusAsStr_chars t c (getLast?_mem hc)
  exact letter_not_whitespace this.1 this.2

theorem intToStr_getLast_not_ws {a : Int} :
    ∀ c, (intToStr a).getLast? = some c → isRustWhitespace c = false := by
  intro c hc
  rcases intToStr_chars c (getLast?_mem hc) with h | h
  · subst h; decide
  · exact digit_not_whitespace h.1 h.2

theorem intToStr_ne_nil {a : Int} : intToStr a ≠ [] := by
  unfold intToStr
  split
  · simp
  · exact natToStr_ne_nil

theorem asStr_ne_nil {t : OperationType} : t.asStr ≠ [] := by cases t <;> decide

theorem statusAsStr_ne_nil {t : OperationStatus} : t.asStr ≠ [] := by cases t <;> decide

theorem trimStr_natToStr {n : Nat} : trimStr (natToStr n) = natToStr n :=
  trimStr_eq_self_of_chars (fun c hc => by
    have := natToStr_digits (n := n) c hc
    exact digit_not_whitespace this.1 this.2)

theorem trimStr_asStr {t : OperationType} : trimStr t.asStr = t.asStr := by
  cases t <;> decide

theorem trimStr_statusAsStr {t : OperationStatus} : trimStr t.asStr = t.asStr := by
  cases t <;> decide

theorem trimStr_intToStr {a : Int} : trimStr (intToStr a) = intToStr a :=
  trimStr_eq_self_of_chars (fun c hc => by
    rcases intToStr_chars c hc with h | h
    · subst h; decide
    · exact digit_not_whitespace h.1 h.2)

theorem quotedDesc_head {d : Str} : ([34] ++ d ++ [34]).head? = some 34 := rfl

theorem quotedDesc_getLast {d : Str} : ([34] ++ d ++ [34]).getLast? = some 34 := by
  rw [List.getLast?_concat]

theorem trimStr_quotedDesc {d : Str} : trimStr ([34] ++ d ++ [34]) = [34] ++ d ++ [34] := by
  apply trimStr_eq_self
  · intro c hc
    rw [quotedDesc_head] at hc
    injection hc with hc
    subst hc
    decide
  · intro c hc
    rw [quotedDesc_getLast] at hc
    injection hc with hc
    subst hc
    decide

theorem append_ne_nil_left {A B : Str} (h : A ≠ []) : A ++ B ≠ [] := by
  intro e
  rcases List.append_eq_nil.mp e with ⟨e1, -⟩
  exact h e1

theorem textLinesOf_lineOK {op : Operation} (hsafe : safeDescB op.description = true) :
    ∀ l ∈ textLinesOf op, 10 ∉ l ∧ l.getLast? ≠ some 13 := by
  obtain ⟨hmem, -, -⟩ := safeDescB_spec hsafe
  have hd10 : ∀ n : Nat, ∀ c ∈ natToStr n, c ≠ 10 := fun n c hc => by
    have := natToStr_digits (n := n) c hc
    omega
  have happ10 : ∀ (p v : Str), (∀ c ∈ p, c ≠ 10) → (∀ c ∈ v, c ≠ 10) → 10 ∉ p ++ v := by
    intro p v hp hv h
    rcases List.mem_append.mp h with h | h
    · exact hp 10 h rfl
    · exact hv 10 h rfl
  intro l hl
  simp only [textLinesOf, List.mem_cons, List.not_mem_nil, or_false] at hl
  rcases hl with rfl | rfl | rfl | rfl | rfl | rfl | rfl | rfl
  · refine ⟨happ10 _ _ (by decide) (hd10 _), ?_⟩
    rw [List.getLast?_append_of_ne_nil _ natToStr_ne_nil]
    intro hc
    have := natToStr_digits (n := op.tx_id) 13 (getLast?_mem hc)
    omega
  · refine ⟨happ10 _ _ (by decide) (fun c hc => by
      have := asStr_chars op.tx_type c hc; omega), ?_⟩
    rw [List.getLast?_append_of_ne_nil _ asStr_ne_nil]
    intro hc
    have := asStr_chars op.tx_type 13 (getLast?_mem hc)
    omega
  · refine ⟨happ10 _ _ (by decide) (hd10 _), ?_⟩
    rw [List.getLast?_append_of_ne_nil _ natToStr_ne_nil]
    intro hc
    have := natToStr_digits (n := op.from_user_id) 13 (getLast?_mem hc)
    omega
  · refine ⟨happ10 _ _ (by decide) (hd10 _), ?_⟩
    rw [List.getLast?_append_of_ne_nil _ natToStr_ne_nil]
    intro hc
    have := natToStr_digits (n := op.to_user_id) 13 (getLast?_mem hc)
    omega
  · refine ⟨happ10 _ _ (by decide) (fun c hc => by
      rcases intToStr_chars c hc with h | h <;> omega), ?_⟩
    rw [List.getLast?_append_of_ne_nil _ intToStr_ne_nil]
    intro hc
    rcases intToStr_chars 13 (getLast?_mem hc) with h | h <;> omega
  · refine ⟨happ10 _ _ (by decide) (hd10 _), ?_⟩
    rw [List.getLast?_append_of_ne_nil _ natToStr_ne_nil]
    intro hc
    have := natToStr_digits (n := op.timestamp) 13 (getLast?_mem hc)
    omega
  · refine ⟨happ10 _ _ (by decide) (fun c hc => by
      have := statusAsStr_chars op.status c hc; omega), ?_⟩
    rw [List.getLast?_append_of_ne_nil _ statusAsStr_ne_nil]
    intro hc
    have := statusAsStr_chars op.status 13 (getLast?_mem hc)
    omega
  · refine ⟨happ10 _ _ (by decide) (fun c hc => by
      simp only [List.mem_append, List.mem_singleton] at hc
      rcases hc with (hc | hc) | hc
      · omega
      · exact (hmem c hc).2.2
      · omega), ?_⟩
    rw [List.getLast?_append_of_ne_nil _ (by simp)]
    rw [quotedDesc_getLast]
    simp

theorem linesOf_textBlock {op : Operation} (hsafe : safeDescB op.description = true) :
    linesOf (textBlockOf op) = textLinesOf op := by
  unfold textBlockOf
  exact linesOf_concat (textLinesOf_lineOK hsafe)

theorem textGo_block {op : Operation} (rest : List Str) (ops : List Operation) :
    textGo (textLinesOf op ++ rest) [] ops = textGo rest (stdRecordMap op) ops := by
  have t1 : trimStr (S "TX_ID: " ++ natToStr op.tx_id) =
      S "TX_ID: " ++ natToStr op.tx_id :=
    textLine_trim (show (S "TX_ID: ").head? = some 84 from by decide) (by decide) natToStr_getLast_not_ws natToStr_ne_nil
  have t2 : trimStr (S "TX_TYPE: " ++ op.tx_type.asStr) =
      S "TX_TYPE: " ++ op.tx_type.asStr :=
    textLine_trim (show (S "TX_TYPE: ").head? = some 84 from by decide) (by decide) asStr_getLast_not_ws asStr_ne_nil
  have t3 : trimStr (S "FROM_USER_ID: " ++ natToStr op.from_user_id) =
      S "FROM_USER_ID: " ++ natToStr op.from_user_id :=
    textLine_trim (show (S "FROM_USER_ID: ").head? = some 70 from by decide) (by decide) natToStr_getLast_not_ws natToStr_ne_nil
  have t4 : trimStr (S "TO_USER_ID: " ++ natToStr op.to_user_id) =
      S "TO_USER_ID: " ++ natToStr op.to_user_id :=
    textLine_trim (show (S "TO_USER_ID: ").head? = some 84 from by decide) (by decide) natToStr_getLast_not_ws natToStr_ne_nil
  have t5 : trimStr (S "AMOUNT: " ++ intToStr op.amount) =
      S "AMOUNT: " ++ intToStr op.amount :=
    textLine_trim (show (S "AMOUNT: ").head? = some 65 from by decide) (by decide) intToStr_getLast_not_ws intToStr_ne_nil
  have t6 : trimStr (S "TIMESTAMP: " ++ natToStr op.timestamp) =
      S "TIMESTAMP: " ++ natToStr op.timestamp :=
    textLine_trim (show (S "TIMESTAMP: ").head? = some 84 from by decide) (by decide) natToStr_getLast_not_ws natToStr_ne_nil
  have t7 : trimStr (S "STATUS: " ++ op.status.asStr) =
      S "STATUS: " ++ op.status.asStr :=
    textLine_trim (show (S "STATUS: ").head? = some 83 from by decide) (by decide) statusAsStr_getLast_not_ws statusAsStr_ne_nil
  have t8 : trimStr (S "DESCRIPTION: " ++ ([34] ++ op.description ++ [34])) =
      S "DESCRIPTION: " ++ ([34] ++ op.description ++ [34]) :=
    textLine_trim (show (S "DESCRIPTION: ").head? = some 68 from by decide) (by decide)
      (fun c hc => by
        rw [quotedDesc_getLast] at hc
        injection hc with hc
        subst hc
        decide)
      (by simp)
  rw [show textLinesOf op ++ rest =
      (S "TX_ID: " ++ natToStr op.tx_id) ::
      (S "TX_TYPE: " ++ op.tx_type.asStr) ::
      (S "FROM_USER_ID: " ++ natToStr op.from_user_id) ::
      (S "TO_USER_ID: " ++ natToStr op.to_user_id) ::
      (S "AMOUNT: " ++ intToStr op.amount) ::
      (S "TIMESTAMP: " ++ natToStr op.timestamp) ::
      (S "STATUS: " ++ op.status.asStr) ::
      (S "DESCRIPTION: " ++ ([34] ++ op.description ++ [34])) :: rest
    from by simp [textLinesOf]]
  rw [textGo_kv (by rw [t1]; exact append_ne_nil_left (by decide))
      (by rw [t1, textLine_head (show (S "TX_ID: ").head? = some 84 from by decide)]; simp)
      (by rw [t1]; exact textLine_kv (show S "TX_ID: " = S "TX_ID" ++ 58 :: [32] from by decide) (by decide) (by decide) trimStr_natToStr)]
  rw [textGo_kv (by rw [t2]; exact append_ne_nil_left (by decide))
      (by rw [t2, textLine_head (show (S "TX_TYPE: ").head? = some 84 from by decide)]; simp)
      (by rw [t2]; exact textLine_kv (show S "TX_TYPE: " = S "TX_TYPE" ++ 58 :: [32] from by decide) (by decide) (by decide) trimStr_asStr)]
  rw [textGo_kv (by rw [t3]; exact append_ne_nil_left (by decide))
      (by rw [t3, textLine_head (show (S "FROM_USER_ID: ").head? = some 70 from by decide)]; simp)
      (by rw [t3]; exact textLine_kv (show S "FROM_USER_ID: " = S "FROM_USER_ID" ++ 58 :: [32] from by decide) (by decide) (by decide) trimStr_natToStr)]
  rw [textGo_kv (by rw [t4]; exact append_ne_nil_left (by decide))
      (by rw [t4, textLine_head (show (S "TO_USER_ID: ").head? = some 84 from by decide)]; simp)
      (by rw [t4]; exact textLine_kv (show S "TO_USER_ID: " = S "TO_USER_ID" ++ 58 :: [32] from by decide) (by decide) (by decide) trimStr_natToStr)]
  rw [textGo_kv (by rw [t5]; exact append_ne_nil_left (by decide))
      (by rw [t5, textLine_head (show (S "AMOUNT: ").head? = some 65 from by decide)]; simp)
      (by rw [t5]; exact textLine_kv (show S "AMOUNT: " = S "AMOUNT" ++ 58 :: [32] from by decide) (by decide) (by decide) trimStr_intToStr)]
  rw [textGo_kv (by rw [t6]; exact append_ne_nil_left (by decide))
      (by rw [t6, textLine_head (show (S "TIMESTAMP: ").head? = some 84 from by decide)]; simp)
      (by rw [t6]; exact textLine_kv (show S "TIMESTAMP: " = S "TIMESTAMP" ++ 58 :: [32] from by decide) (by decide) (by decide) trimStr_natToStr)]
  rw [textGo_kv (by rw [t7]; exact append_ne_nil_left (by decide))
      (by rw [t7, textLine_head (show (S "STATUS: ").head? = some 83 from by decide)]; simp)
      (by rw [t7]; exact textLine_kv (show S "STATUS: " = S "STATUS" ++ 58 :: [32] from by decide) (by decide) (by decide) trimStr_statusAsStr)]
  rw [textGo_kv (by rw [t8]; exact append_ne_nil_left (by decide))
      (by rw [t8, textLine_head (show (S "DESCRIPTION: ").head? = some 68 from by decide)]; simp)
      (by rw [t8]; exact textLine_kv (show S "DESCRIPTION: " = S "DESCRIPTION" ++ 58 :: [32] from by decide) (by decide) (by decide) trimStr_quotedDesc)]
  rfl

theorem parseRecord_std {op : Operation} (hWF : op.WF)
    (hq : ∀ c ∈ op.description, c ≠ 34) :
    parseRecord (stdRecordMap op) = .ok op := by
  obtain ⟨hw1, hw2, hw3, hw4, hw5, hw6, hw7, hw8⟩ := hWF
  unfold stdRecordMap
  have g8 : hmGet (hmInsert (hmInsert (hmInsert (hmInsert (hmInsert (hmInsert (hmInsert
      (hmInsert [] (S "TX_ID") (natToStr op.tx_id)) (S "TX_TYPE") op.tx_type.asStr)
      (S "FROM_USER_ID") (natToStr op.from_user_id)) (S "TO_USER_ID")
      (natToStr op.to_user_id)) (S "AMOUNT") (intToStr op.amount)) (S "TIMESTAMP")
      (natToStr op.timestamp)) (S "STATUS") op.status.asStr) (S "DESCRIPTION")
      ([34] ++ op.description ++ [34])) (S "DESCRIPTION") =
      some ([34] ++ op.description ++ [34]) := hmGet_insert_same _ _ _
  have g7 : hmGet (hmInsert (hmInsert (hmInsert (hmInsert (hmInsert (hmInsert (hmInsert
      (hmInsert [] (S "TX_ID") (natToStr op.tx_id)) (S "TX_TYPE") op.tx_type.asStr)
      (S "FROM_USER_ID") (natToStr op.from_user_id)) (S "TO_USER_ID")
      (natToStr op.to_user_id)) (S "AMOUNT") (intToStr op.amount)) (S "TIMESTAMP")
      (natToStr op.timestamp)) (S "STATUS") op.status.asStr) (S "DESCRIPTION")
      ([34] ++ op.description ++ [34])) (S "STATUS") = some op.status.asStr := by
    rw [hmGet_insert_ne (by decide), hmGet_insert_same]
  have g6 : hmGet (hmInsert (hmInsert (hmInsert (hmInsert (hmInsert (hmInsert (hmInsert
      (hmInsert [] (S "TX_ID") (natToStr op.tx_id)) (S "TX_TYPE") op.tx_type.asStr)
      (S "FROM_USER_ID") (natToStr op.from_user_id)) (S "TO_USER_ID")
      (natToStr op.to_user_id)) (S "AMOUNT") (intToStr op.amount)) (S "TIMESTAMP")
      (natToStr op.timestamp)) (S "STATUS") op.status.asStr) (S "DESCRIPTION")
      ([34] ++ op.description ++ [34])) (S "TIMESTAMP") = some (natToStr op.timestamp) := by
    rw [hmGet_insert_ne (by decide), hmGet_insert_ne (by decide), hmGet_insert_same]
  have g5 : hmGet (hmInsert (hmInsert (hmInsert (hmInsert (hmInsert (hmInsert (hmInsert
      (hmInsert [] (S "TX_ID") (natToStr op.tx_id)) (S "TX_TYPE") op.tx_type.asStr)
      (S "FROM_USER_ID") (natToStr op.from_user_id)) (S "TO_USER_ID")
      (natToStr op.to_user_id)) (S "AMOUNT") (intToStr op.amount)) (S "TIMESTAMP")
      (natToStr op.timestamp)) (S "STATUS") op.status.asStr) (S "DESCRIPTION")
      ([34] ++ op.description ++ [34])) (S "AMOUNT") = some (intToStr op.amount) := by
    rw [hmGet_insert_ne (by decide), hmGet_insert_ne (by decide),
      hmGet_insert_ne (by decide), hmGet_insert_same]
  have g4 : hmGet (hmInsert (hmInsert (hmInsert (hmInsert (hmInsert (hmInsert (hmInsert
      (hmInsert [] (S "TX_ID") (natToStr op.tx_id)) (S "TX_TYPE") op.tx_type.asStr)
      (S "FROM_USER_ID") (natToStr op.from_user_id)) (S "TO_USER_ID")
      (natToStr op.to_user_id)) (S "AMOUNT") (intToStr op.amount)) (S "TIMESTAMP")
      (natToStr op.timestamp)) (S "STATUS") op.status.asStr) (S "DESCRIPTION")
      ([34] ++ op.description ++ [34])) (S "TO_USER_ID") = some (natToStr op.to_user_id) := by
    rw [hmGet_insert_ne (by decide), hmGet_insert_ne (by decide),
      hmGet_insert_ne (by decide), hmGet_insert_ne (by decide), hmGet_insert_same]
  have g3 : hmGet (hmInsert (hmInsert (hmInsert (hmInsert (hmInsert (hmInsert (hmInsert
      (hmInsert [] (S "TX_ID") (natToStr op.tx_id)) (S "TX_TYPE") op.tx_type.asStr)
      (S "FROM_USER_ID") (natToStr op.from_user_id)) (S "TO_USER_ID")
      (natToStr op.to_user_id)) (S "AMOUNT") (intToStr op.amount)) (S "TIMESTAMP")
      (natToStr op.timestamp)) (S "STATUS") op.status.asStr) (S "DESCRIPTION")
      ([34] ++ op.description ++ [34])) (S "FROM_USER_ID") =
      some (natToStr op.from_user_id) := by
    rw [hmGet_insert_ne (by decide), hmGet_insert_ne (by decide),
      hmGet_insert_ne (by decide), hmGet_insert_ne (by decide),
      hmGet_insert_ne (by decide), hmGet_insert_same]
  have g2 : hmGet (hmInsert (hmInsert (hmInsert (hmInsert (hmInsert (hmInsert (hmInsert
      (hmInsert [] (S "TX_ID") (natToStr op.tx_id)) (S "TX_TYPE") op.tx_type.asStr)
      (S "FROM_USER_ID") (natToStr op.from_user_id)) (S "TO_USER_ID")
      (natToStr op.to_user_id)) (S "AMOUNT") (intToStr op.amount)) (S "TIMESTAMP")
      (natToStr op.timestamp)) (S "STATUS") op.status.asStr) (S "DESCRIPTION")
      ([34] ++ op.description ++ [34])) (S "TX_TYPE") = some op.tx_type.asStr := by
    rw [hmGet_insert_ne (by decide), hmGet_insert_ne (by decide),
      hmGet_insert_ne (by decide), hmGet_insert_ne (by decide),
      hmGet_insert_ne (by decide), hmGet_insert_ne (by decide), hmGet_insert_same]
  have g1 : hmGet (hmInsert (hmInsert (hmInsert (hmInsert (hmInsert (hmInsert (hmInsert
      (hmInsert [] (S "TX_ID") (natToStr op.tx_id)) (S "TX_TYPE") op.tx_type.asStr)
      (S "FROM_USER_ID") (natToStr op.from_user_id)) (S "TO_USER_ID")
      (natToStr op.to_user_id)) (S "AMOUNT") (intToStr op.amount)) (S "TIMESTAMP")
      (natToStr op.timestamp)) (S "STATUS") op.status.asStr) (S "DESCRIPTION")
      ([34] ++ op.description ++ [34])) (S "TX_ID") = some (natToStr op.tx_id) := by
    rw [hmGet_insert_ne (by decide), hmGet_insert_ne (by decide),
      hmGet_insert_ne (by decide), hmGet_insert_ne (by decide),
      hmGet_insert_ne (by decide), hmGet_insert_ne (by decide),
      hmGet_insert_ne (by decide), hmGet_insert_same]
  have heta : (⟨op.tx_id, op.tx_type, op.from_user_id, op.to_user_id, op.amount,
      op.timestamp, op.status, op.description⟩ : Operation) = op := rfl
  simp only [parseRecord, g1, g2, g3, g4, g5, g6, g7, g8,
    parseU64_natToStr hw1, fromStr_asStr, parseU64_natToStr hw2, parseU64_natToStr hw3,
    parseI64_intToStr hw4 hw5, parseU64_natToStr hw6, statusFromStr_asStr,
    trimMatchesQuote_wrap hq, heta]

theorem stdRecordMap_nonempty {op : Operation} : (stdRecordMap op).isEmpty = false := by
  simp [stdRecordMap, hmInsert]

theorem textGo_end_flush {cur : List (Str × Str)} {op : Operation}
    (hcur : cur.isEmpty = false) (hpr : parseRecord cur = .ok op)
    (hval : op.validate = .ok ()) (ops : List Operation) :
    textGo [] cur ops = .ok (insertOp ops op) := by
  rw [textGo.eq_def]
  dsimp only
  rw [if_neg (by simp [hcur]), hpr]
  dsimp only
  rw [hval]

theorem textGo_blank_flush {line : Str} (hb : trimStr line = [])
    {cur : List (Str × Str)} {op : Operation} (hcur : cur.isEmpty = false)
    (hpr : parseRecord cur = .ok op) (hval : op.validate = .ok ())
    (rest : List Str) (ops : List Operation) :
    textGo (line :: rest) cur ops = textGo rest [] (insertOp ops op) := by
  rw [textGo.eq_def]
  dsimp only
  rw [if_pos (Or.inl hb)]
  rw [if_pos ⟨by simp [hcur], hb⟩]
  rw [hpr]
  dsimp only
  rw [hval]

theorem parseAllText_single {op : Operation} (hWF : op.WF) (hval : op.validate = .ok ())
    (hsafe : safeDescB op.description = true) :
    parseAllText (textBlockOf op) = .ok [op] := by
  obtain ⟨hmem, -, -⟩ := safeDescB_spec hsafe
  unfold parseAllText
  rw [linesOf_textBlock hsafe]
  rw [show textLinesOf op = textLinesOf op ++ ([] : List Str) by simp]
  rw [textGo_block]
  rw [textGo_end_flush stdRecordMap_nonempty
    (parseRecord_std hWF (fun c hc => (hmem c hc).1)) hval]
  simp [insertOp]

theorem csvGo_step {line : Str} {op : Operation} (hne : trimStr line ≠ [])
    (hpl : parseLine line = .ok op) (hval : op.validate = .ok ())
    (rest : List Str) (n : Nat) (ops : List Operation) :
    csvGo (line :: rest) n ops = csvGo rest (n + 1) (insertOp ops op) := by
  rw [csvGo.eq_def]
  dsimp only
  rw [if_neg hne, hpl]
  dsimp only
  rw [hval]

theorem csvGo_err {line : Str} {e : ParseError} {n : Nat} (hne : trimStr line ≠ [])
    (hpl : parseLine line = .error e) (rest : List Str) (ops : List Operation) :
    csvGo (line :: rest) n ops =
      .error (.invalidFormat (S "Line " ++ natToStr (n + 2) ++ S ": " ++ displayErr e)) := by
  rw [csvGo.eq_def]
  dsimp only
  rw [if_neg hne, hpl]

theorem parseAllCsv_header {s : List Nat} {rest : List Str}
    (h : linesOf s = HEADER :: rest) : parseAllCsv s = csvGo rest 0 [] := by
  unfold parseAllCsv
  rw [h]
  dsimp only
  rw [if_neg (by simp)]

theorem trimStr_csvLineOf {op : Operation} : trimStr (csvLineOf op) ≠ [] := by
  obtain ⟨c, cs, hcs⟩ := List.exists_cons_of_ne_nil (natToStr_ne_nil (n := op.tx_id))
  have hd := natToStr_digits (n := op.tx_id) c (by rw [hcs]; exact List.mem_cons_self _ _)
  unfold csvLineOf
  rw [hcs]
  simp only [List.cons_append, List.append_assoc]
  exact trimStr_ne_nil (digit_not_whitespace hd.1 hd.2)

theorem csvLine_lineOK {op : Operation} (hsafe : safeDescB op.description = true) :
    10 ∉ csvLineOf op ∧ (csvLineOf op).getLast? ≠ some 13 := by
  refine ⟨fun h => csvLineOf_no10 hsafe 10 h rfl, ?_⟩
  rw [csvLineOf_getLast]
  simp

theorem linesOf_csvTwo {op1 op2 : Operation} (h1 : safeDescB op1.description = true)
    (h2 : safeDescB op2.description = true) :
    linesOf (HEADER ++ [10] ++ (csvLineOf op1 ++ [10]) ++ (csvLineOf op2 ++ [10])) =
      [HEADER, csvLineOf op1, csvLineOf op2] := by
  rw [show HEADER ++ [10] ++ (csvLineOf op1 ++ [10]) ++ (csvLineOf op2 ++ [10]) =
      (([HEADER, csvLineOf op1, csvLineOf op2]).map (fun l => l ++ [10])).flatten from by
    simp]
  apply linesOf_concat
  intro l hl
  rcases List.mem_cons.mp hl with rfl | hl2
  · exact ⟨by decide, by decide⟩
  · rcases List.mem_cons.mp hl2 with rfl | hl3
    · exact csvLine_lineOK h1
    · rcases List.mem_cons.mp hl3 with rfl | hl4
      · exact csvLine_lineOK h2
      · simp at hl4

theorem linesOf_textTwo {op1 op2 : Operation} (h1 : safeDescB op1.description = true)
    (h2 : safeDescB op2.description = true) :
    linesOf (textBlockOf op1 ++ ([10] ++ textBlockOf op2)) =
      textLinesOf op1 ++ [] :: textLinesOf op2 := by
  rw [show textBlockOf op1 ++ ([10] ++ textBlockOf op2) =
      (((textLinesOf op1 ++ [] :: textLinesOf op2)).map (fun l => l ++ [10])).flatten from by
    simp [textBlockOf]]
  apply linesOf_concat
  intro l hl
  rcases List.mem_append.mp hl with h | h
  · exact textLinesOf_lineOK h1 l h
  · rcases List.mem_cons.mp h with rfl | h
    · exact ⟨by simp, by simp⟩
    · exact textLinesOf_lineOK h2 l h

theorem insertOp_dup {ops : List Operation} {op1 op2 : Operation}
    (hmem : op1 ∈ ops) (hid : op1.tx_id = op2.tx_id) :
    insertOp ops op2 = ops := by
  unfold insertOp
  rw [if_pos]
  exact List.any_eq_true.mpr ⟨op1, hmem, by simp [hid]⟩

theorem insertOp_nil (op : Operation) : insertOp [] op = [op] := rfl

theorem parseAllBinAux_eof {s : List Nat}
    (h : parseOperation s = .error .ioUnexpectedEof) (acc : List Operation) :
    parseAllBinAux s acc = .ok acc := by
  rw [parseAllBinAux.eq_def]
  split
  · rename_i op rest heq
    rw [h] at heq
    exact Except.noConfusion heq
  · rfl
  · rename_i e hnot heqn
    rw [h] at heqn
    injection heqn with heq2
    exact absurd heq2.symm hnot

theorem parseAllBinAux_ok {s : List Nat} {op : Operation} {rest : List Nat}
    (h : parseOperation s = .ok (op, rest)) (acc : List Operation) :
    parseAllBinAux s acc = parseAllBinAux rest (insertOp acc op) := by
  rw [parseAllBinAux.eq_def]
  split
  · rename_i op2 rest2 heq
    rw [h] at heq
    injection heq with heq2
    injection heq2 with e1 e2
    subst e1
    subst e2
    rfl
  · rename_i heq
    rw [h] at heq
    exact Except.noConfusion heq
  · rename_i e hnot heqn
    rw [h] at heqn
    exact Except.noConfusion heqn

example : parseU64 (S "+7") = .ok 7 := by decide
example : parseU64 (S "-7") = .error msgInvalidDigit := by decide
example : parseU64 (S "") = .error msgEmpty := by decide
example : parseU64 (S "18446744073709551616") = .error msgPosOverflow := by decide
example : parseU64 (S "18446744073709551615") = .ok 18446744073709551615 := by decide
example : parseI64 (S "-9223372036854775808") = .ok (-9223372036854775808) := by decide
example : parseI64 (S "-9223372036854775809") = .error msgNegOverflow := by decide
example : parseI64 (S "9223372036854775807") = .ok 9223372036854775807 := by decide
example : natToStr 0 = S "0" := by decide
example : natToStr 1633036860000 = S "1633036860000" := by decide
example : intToStr (-45) = S "-45" := by decide
example : trimStr (S "  ab c  ") = S "ab c" := by decide
example : unescapeStr (S "\\\"Record number 1\\\"") = S "\"Record number 1\"" := by decide
example : unescapeStr (S "Line1\\nLine2") = S "Line1\nLine2" := by decide
example : unescapeStr (S "Tab\\there") = S "Tab\there" := by decide
example : unescapeStr (S "Backslash\\\\") = S "Backslash\\" := by decide
example : unescapeStr (S "unknown \\q escape") = S "unknown \\q escape" := by decide
example : normalizeDescription (S "\"\\\"text\\\"\"") = S "\"text\"" := by decide
example : normalizeDescription (S "  \"trimmed\"  ") = S "trimmed" := by decide
example : utf8Encode (S "Ну 🎉") = [208, 157, 209, 131, 32, 240, 159, 142, 137] := by decide
example : utf8Decode [208, 157, 209, 131, 32, 240, 159, 142, 137] = some (S "Ну 🎉") := by decide
example : utf8Decode [0xC0, 0x80] = none := by decide
example : utf8Decode [0xED, 0xA0, 0x80] = none := by decide
example : toBE 4 1000 = [0, 0, 3, 232] := by decide
example : fromBE [0, 0, 3, 232] = 1000 := by decide
example : i64ToBE (-2) = [255, 255, 255, 255, 255, 255, 255, 254] := by decide
example : i64FromBE [255, 255, 255, 255, 255, 255, 255, 254] = -2 := by decide

def opTest : Operation :=
  { tx_id := 42, tx_type := .deposit, from_user_id := 0, to_user_id := 7
    amount := -5, timestamp := 1633036860000, status := .success
    description := S "Ну 🎉 ok" }

example : (writeOperation opTest).toOption.bind
    (fun bs => (parseOperation bs).toOption) = some (opTest, []) := by decide
example : (writeAllCsv [opTest]).toOption.bind
    (fun s => (parseAllCsv s).toOption) = some [opTest] := by decide
example : (writeAllText [opTest]).toOption.bind
    (fun s => (parseAllText s).toOption) = some [opTest] := by decide
example : splitCsvLine (S "1,a,\"x,y\",b") = [S "1", S "a", S "\"x,y\"", S "b"] := by
  decide
example : trimMatchesQuote (S "\"\"a\"\"") = S "a" := by decide
example : parseAllCsv (S "BAD") =
    .error (.invalidFormat (S "Invalid CSV header. Expected: " ++ HEADER)) := by decide

theorem bindP_ok_inv {α β : Type} {p : BinP α} {f : α → BinP β} {s : List Nat}
    {b : β} {r : List Nat} (h : bindP p f s = .ok (b, r)) :
    ∃ a s2, p s = .ok (a, s2) ∧ f a s2 = .ok (b, r) := by
  unfold bindP at h
  split at h
  · rename_i a s2 hps
    exact ⟨a, s2, hps, h⟩
  · exact Except.noConfusion h

theorem finishOp_ok {op : Operation} {s : List Nat} {b : Operation} {r : List Nat}
    (h : finishOp op s = .ok (b, r)) : op.validate = .ok () ∧ b = op := by
  cases hv : op.validate with
  | ok u =>
    cases u
    refine ⟨rfl, ?_⟩
    simp only [finishOp, bindP, liftE, pureP, hv] at h
    simp only [Except.ok.injEq, Prod.mk.injEq] at h
    exact h.1.symm
  | error e =>
    exfalso
    simp only [finishOp, bindP, liftE, pureP, hv] at h
    exact Except.noConfusion h

/-- Every operation returned by `parse_operation` passed `validate`. -/
theorem parseOperation_validates {s : List Nat} {op : Operation} {r : List Nat}
    (h : parseOperation s = .ok (op, r)) : op.validate = .ok () := by
  unfold parseOperation at h
  obtain ⟨magic, s1, -, h⟩ := bindP_ok_inv h
  by_cases hm : magic ≠ MAGIC
  · rw [if_pos hm] at h
    exact Except.noConfusion h
  · rw [if_neg hm] at h
    obtain ⟨-, s2, -, h⟩ := bindP_ok_inv h
    obtain ⟨txIdB, s3, -, h⟩ := bindP_ok_inv h
    obtain ⟨typeB, s4, -, h⟩ := bindP_ok_inv h
    obtain ⟨txType, s5, -, h⟩ := bindP_ok_inv h
    obtain ⟨fromB, s6, -, h⟩ := bindP_ok_inv h
    obtain ⟨toB, s7, -, h⟩ := bindP_ok_inv h
    obtain ⟨amountB, s8, -, h⟩ := bindP_ok_inv h
    obtain ⟨tsB, s9, -, h⟩ := bindP_ok_inv h
    obtain ⟨statusB, s10, -, h⟩ := bindP_ok_inv h
    obtain ⟨status, s11, -, h⟩ := bindP_ok_inv h
    obtain ⟨lenB, s12, -, h⟩ := bindP_ok_inv h
    obtain ⟨descBytes, s13, -, h⟩ := bindP_ok_inv h
    obtain ⟨rawDescription, s14, -, h⟩ := bindP_ok_inv h
    obtain ⟨hval, hb⟩ := finishOp_ok h
    rw [hb]
    exact hval

theorem parseAllBinAux_err {s : List Nat} {e : ParseError}
    (h : parseOperation s = .error e) (hne : e ≠ .ioUnexpectedEof)
    (acc : List Operation) : parseAllBinAux s acc = .error e := by
  rw [parseAllBinAux.eq_def]
  split
  · rename_i op rest heq
    rw [h] at heq
    exact Except.noConfusion heq
  · rename_i heq
    rw [h] at heq
    injection heq with h2
    exact absurd h2 hne
  · rename_i e2 hnot heqn
    rw [h] at heqn
    injection heqn with h2
    exact congrArg Except.error h2.symm

theorem insertOp_mem {ops : List Operation} {op o : Operation}
    (h : o ∈ insertOp ops op) : o ∈ ops ∨ o = op := by
  unfold insertOp at h
  split at h
  · exact Or.inl h
  · rcases List.mem_append.mp h with h2 | h2
    · exact Or.inl h2
    · exact Or.inr (List.mem_singleton.mp h2)

theorem parseAllBinAux_validates :
    ∀ (n : Nat) (s : List Nat), s.length ≤ n → ∀ (acc : List Operation),
      (∀ o ∈ acc, o.validate = .ok ()) → ∀ ops, parseAllBinAux s acc = .ok ops →
      ∀ o ∈ ops, o.validate = .ok () := by
  intro n
  induction n with
  | zero =>
    intro s hs acc hacc ops hrun
    have hnil : s = [] := List.eq_nil_of_length_eq_zero (by omega)
    subst hnil
    rw [parseAllBinAux_eof (by decide)] at hrun
    injection hrun with h2
    subst h2
    exact hacc
  | succ n ih =>
    intro s hs acc hacc ops hrun
    cases hp : parseOperation s with
    | ok pr =>
      obtain ⟨o2, rest⟩ := pr
      rw [parseAllBinAux_ok hp] at hrun
      have hlen := parseOperation_length_lt hp
      refine ih rest (by omega) (insertOp acc o2) ?_ ops hrun
      intro o ho
      rcases insertOp_mem ho with h2 | h2
      · exact hacc o h2
      · rw [h2]
        exact parseOperation_validates hp
    | error e =>
      by_cases he : e = .ioUnexpectedEof
      · subst he
        rw [parseAllBinAux_eof hp] at hrun
        injection hrun with h2
        subst h2
        exact hacc
      · rw [parseAllBinAux_err hp he] at hrun
        exact Except.noConfusion hrun

theorem parseAllBin_validates {s : List Nat} {ops : List Operation}
    (h : parseAllBin s = .ok ops) : ∀ o ∈ ops, o.validate = .ok () :=
  parseAllBinAux_validates s.length s le_rfl [] (by simp) ops h

theorem csvGo_validates : ∀ (lines : List Str) (n : Nat) (acc : List Operation),
    (∀ o ∈ acc, o.validate = .ok ()) → ∀ ops, csvGo lines n acc = .ok ops →
    ∀ o ∈ ops, o.validate = .ok () := by
  intro lines
  induction lines with
  | nil =>
    intro n acc hacc ops hrun
    rw [csvGo_nil] at hrun
    injection hrun with h2
    subst h2
    exact hacc
  | cons line rest ih =>
    intro n acc hacc ops hrun
    rw [csvGo.eq_def] at hrun
    dsimp only at hrun
    by_cases ht : trimStr line = []
    · rw [if_pos ht] at hrun
      exact ih _ _ hacc ops hrun
    · rw [if_neg ht] at hrun
      cases hpl : parseLine line with
      | error e =>
        rw [hpl] at hrun
        exact Except.noConfusion hrun
      | ok o2 =>
        rw [hpl] at hrun
        dsimp only at hrun
        cases hv : o2.validate with
        | error e =>
          rw [hv] at hrun
          exact Except.noConfusion hrun
        | ok u =>
          rw [hv] at hrun
          dsimp only at hrun
          refine ih _ _ ?_ ops hrun
          intro o ho
          rcases insertOp_mem ho with h2 | h2
          · exact hacc o h2
          · rw [h2]
            cases u
            exact hv

theorem parseAllCsv_validates {s : List Nat} {ops : List Operation}
    (h : parseAllCsv s = .ok ops) : ∀ o ∈ ops, o.validate = .ok () := by
  unfold parseAllCsv at h
  cases hl : linesOf s with
  | nil =>
    rw [hl] at h
    exact Except.noConfusion h
  | cons header rest =>
    rw [hl] at h
    dsimp only at h
    by_cases hh : header ≠ HEADER
    · rw [if_pos hh] at h
      exact Except.noConfusion h
    · rw [if_neg hh] at h
      exact csvGo_validates rest 0 [] (by simp) ops h

theorem textGo_validates : ∀ (lines : List Str) (cur : List (Str × Str))
    (acc : List Operation), (∀ o ∈ acc, o.validate = .ok ()) →
    ∀ ops, textGo lines cur acc = .ok ops → ∀ o ∈ ops, o.validate = .ok () := by
  intro lines
  induction lines with
  | nil =>
    intro cur acc hacc ops hrun
    rw [textGo.eq_def] at hrun
    dsimp only at hrun
    by_cases hc : cur.isEmpty = true
    · rw [if_pos hc] at hrun
      injection hrun with h2
      subst h2
      exact hacc
    · rw [if_neg hc] at hrun
      cases hpr : parseRecord cur with
      | error e =>
        rw [hpr] at hrun
        exact Except.noConfusion hrun
      | ok o2 =>
        rw [hpr] at hrun
        dsimp only at hrun
        cases hv : o2.validate with
        | error e =>
          rw [hv] at hrun
          exact Except.noConfusion hrun
        | ok u =>
          rw [hv] at hrun
          dsimp only at hrun
          injection hrun with h2
          subst h2
          intro o ho
          rcases insertOp_mem ho with h2 | h2
          · exact hacc o h2
          · rw [h2]
            cases u
            exact hv
  | cons line rest ih =>
    intro cur acc hacc ops hrun
    rw [textGo.eq_def] at hrun
    dsimp only at hrun
    by_cases hsep : trimStr line = [] ∨ (trimStr line).head? = some 35
    · rw [if_pos hsep] at hrun
      by_cases hfl : ¬cur.isEmpty = true ∧ trimStr line = []
      · rw [if_pos hfl] at hrun
        cases hpr : parseRecord cur with
        | error e =>
          rw [hpr] at hrun
          exact Except.noConfusion hrun
        | ok o2 =>
          rw [hpr] at hrun
          dsimp only at hrun
          cases hv : o2.validate with
          | error e =>
            rw [hv] at hrun
            exact Except.noConfusion hrun
          | ok u =>
            rw [hv] at hrun
            dsimp only at hrun
            refine ih _ _ ?_ ops hrun
            intro o ho
            rcases insertOp_mem ho with h2 | h2
            · exact hacc o h2
            · rw [h2]
              cases u
              exact hv
      · rw [if_neg hfl] at hrun
        exact ih _ _ hacc ops hrun
    · rw [if_neg hsep] at hrun
      cases hkv : parseKeyValue (trimStr line) with
      | some kv =>
        rw [hkv] at hrun
        dsimp only at hrun
        exact ih _ _ hacc ops hrun
      | none =>
        rw [hkv] at hrun
        exact ih _ _ hacc ops hrun

theorem parseAllText_validates {s : List Nat} {ops : List Operation}
    (h : parseAllText s = .ok ops) : ∀ o ∈ ops, o.validate = .ok () := by
  unfold parseAllText at h
  exact textGo_validates (linesOf s) [] [] (by simp) ops h

/-- A failing `validate` always fails with an `InvalidField` error. -/
theorem validate_error_invalidField {op : Operation} (h : op.validate ≠ .ok ()) :
    ∃ f r, op.validate = .error (.invalidField f r) := by
  obtain ⟨i, ty, f, t, a, m, s, d⟩ := op
  cases ty
  · by_cases hf : f = 0
    · exact absurd (by simp [Operation.validate, hf]) h
    · exact ⟨S "FROM_USER_ID", S "Must be 0 for DEPOSIT",
        by simp [Operation.validate, hf]⟩
  · by_cases h2 : f = 0 ∨ t = 0
    · exact ⟨S "FROM_USER_ID/TO_USER_ID", S "Cannot be 0 for TRANSFER",
        by simp only [Operation.validate]; rw [if_pos h2]⟩
    · exact absurd (by simp only [Operation.validate]; rw [if_neg h2]) h
  · by_cases ht : t = 0
    · exact absurd (by simp [Operation.validate, ht]) h
    · exact ⟨S "TO_USER_ID", S "Must be 0 for WITHDRAWAL",
        by simp [Operation.validate, ht]⟩

theorem writeOperation_invalid {op : Operation} (h : op.validate ≠ .ok ()) :
    ∃ f r, writeOperation op = .error (.invalidField f r) := by
  obtain ⟨f, r, hv⟩ := validate_error_invalidField h
  exact ⟨f, r, by unfold writeOperation; rw [hv]⟩

theorem csvWriteGo_invalid : ∀ (ops : List Operation),
    (∃ o ∈ ops, o.validate ≠ .ok ()) →
    ∃ f r, csvWriteGo ops = .error (.invalidField f r) := by
  intro ops
  induction ops with
  | nil =>
    rintro ⟨o, ho, -⟩
    simp at ho
  | cons op rest ih =>
    rintro ⟨o, ho, hbad⟩
    rcases List.mem_cons.mp ho with rfl | ho2
    · obtain ⟨f, r, hvf⟩ := validate_error_invalidField hbad
      exact ⟨f, r, by rw [csvWriteGo.eq_def]; dsimp only; rw [hvf]⟩
    · cases hv : op.validate with
      | error e =>
        obtain ⟨f, r, hvf⟩ := validate_error_invalidField
          (show op.validate ≠ .ok () by rw [hv]; exact fun h2 => Except.noConfusion h2)
        exact ⟨f, r, by rw [csvWriteGo.eq_def]; dsimp only; rw [hvf]⟩
      | ok u =>
        obtain ⟨f, r, hrec⟩ := ih ⟨o, ho2, hbad⟩
        refine ⟨f, r, ?_⟩
        rw [csvWriteGo.eq_def]
        dsimp only
        rw [hv]
        dsimp only
        rw [hrec]
        rfl

theorem writeAllCsv_invalid {ops : List Operation}
    (h : ∃ o ∈ ops, o.validate ≠ .ok ()) :
    ∃ f r, writeAllCsv ops = .error (.invalidField f r) := by
  obtain ⟨f, r, hg⟩ := csvWriteGo_invalid ops h
  exact ⟨f, r, by unfold writeAllCsv; rw [hg]; rfl⟩

theorem textWriteGo_invalid : ∀ (ops : List Operation) (isFirst : Bool),
    (∃ o ∈ ops, o.validate ≠ .ok ()) →
    ∃ f r, textWriteGo ops isFirst = .error (.invalidField f r) := by
  intro ops
  induction ops with
  | nil =>
    rintro isFirst ⟨o, ho, -⟩
    simp at ho
  | cons op rest ih =>
    rintro isFirst ⟨o, ho, hbad⟩
    rcases List.mem_cons.mp ho with rfl | ho2
    · obtain ⟨f, r, hvf⟩ := validate_error_invalidField hbad
      exact ⟨f, r, by rw [textWriteGo.eq_def]; dsimp only; rw [hvf]⟩
    · cases hv : op.validate with
      | error e =>
        obtain ⟨f, r, hvf⟩ := validate_error_invalidField
          (show op.validate ≠ .ok () by rw [hv]; exact fun h2 => Except.noConfusion h2)
        exact ⟨f, r, by rw [textWriteGo.eq_def]; dsimp only; rw [hvf]⟩
      | ok u =>
        obtain ⟨f, r, hrec⟩ := ih false ⟨o, ho2, hbad⟩
        refine ⟨f, r, ?_⟩
        rw [textWriteGo.eq_def]
        dsimp only
        rw [hv]
        dsimp only
        rw [hrec]
        rfl

theorem writeAllText_invalid {ops : List Operation}
    (h : ∃ o ∈ ops, o.validate ≠ .ok ()) :
    ∃ f r, writeAllText ops = .error (.invalidField f r) := by
  obtain ⟨f, r, hg⟩ := textWriteGo_invalid ops true h
  exact ⟨f, r, by unfold writeAllText; rw [hg]⟩

theorem writeAllBin_invalid : ∀ (ops : List Operation),
    (∃ o ∈ ops, o.validate ≠ .ok ()) →
    ∃ f r, writeAllBin ops = .error (.invalidField f r) := by
  intro ops
  induction ops with
  | nil =>
    rintro ⟨o, ho, -⟩
    simp at ho
  | cons op rest ih =>
    rintro ⟨o, ho, hbad⟩
    rcases List.mem_cons.mp ho with rfl | ho2
    · obtain ⟨f, r, hvf⟩ := writeOperation_invalid hbad
      exact ⟨f, r, by rw [writeAllBin.eq_def]; dsimp only; rw [hvf]⟩
    · cases hv : op.validate with
      | error e =>
        obtain ⟨f, r, hvf⟩ := writeOperation_invalid
          (show op.validate ≠ .ok () by rw [hv]; exact fun h2 => Except.noConfusion h2)
        exact ⟨f, r, by rw [writeAllBin.eq_def]; dsimp only; rw [hvf]⟩
      | ok u =>
        obtain ⟨f, r, hrec⟩ := ih ⟨o, ho2, hbad⟩
        refine ⟨f, r, ?_⟩
        rw [writeAllBin.eq_def]
        dsimp only
        cases u
        rw [writeOperation_ok hv]
        dsimp only
        rw [hrec]
        rfl

/-- A maximal chunk with no comma never splits, whatever the quote state. -/
theorem splitCsvAux_nocomma : ∀ (cs : List Nat), (∀ c ∈ cs, c ≠ 44) →
    ∀ inQ cur, splitCsvAux cs inQ cur = [cur.reverse ++ cs] := by
  intro cs
  induction cs with
  | nil =>
    intro h inQ cur
    simp [splitCsvAux]
  | cons c cs ih =>
    intro h inQ cur
    by_cases h34 : c = 34
    · subst h34
      rw [splitCsvAux_quote, ih (fun x hx => h x (List.mem_cons_of_mem _ hx))]
      simp
    · rw [splitCsvAux_other h34 (h c (List.mem_cons_self _ _)),
        ih (fun x hx => h x (List.mem_cons_of_mem _ hx))]
      simp

/-- Text-codec record accumulator holding fixed numeric values and a
DESCRIPTION value `v`. -/
def c4TextMap (v : Str) : List (Str × Str) :=
  hmInsert (hmInsert (hmInsert (hmInsert (hmInsert (hmInsert (hmInsert
    (hmInsert [] (S "TX_ID") (S "1")) (S "TX_TYPE") (S "DEPOSIT"))
    (S "FROM_USER_ID") (S "0")) (S "TO_USER_ID") (S "0"))
    (S "AMOUNT") (S "5")) (S "TIMESTAMP") (S "5"))
    (S "STATUS") (S "SUCCESS")) (S "DESCRIPTION") v

theorem parseRecord_c4 (v : Str) :
    parseRecord (c4TextMap v) = .ok
      { tx_id := 1, tx_type := .deposit, from_user_id := 0, to_user_id := 0,
        amount := 5, timestamp := 5, status := .success,
        description := trimMatchesQuote v } := rfl

/-- A valid operation whose description holds a backslash escape
sequence: binary write emits it raw, binary parse unescapes it. -/
def c1op : Operation :=
  { tx_id := 1, tx_type := .deposit, from_user_id := 0, to_user_id := 2
    amount := 5, timestamp := 6, status := .success, description := [92, 110] }

/-- A representative valid operation with a Unicode description. -/
def c1wop : Operation :=
  { tx_id := 12345, tx_type := .deposit, from_user_id := 0, to_user_id := 67890
    amount := 1000, timestamp := 1633036860000, status := .success
    description := S "Ну по-русски 🎉" }

/-- A valid withdrawal used as the truncated-stream witness record. -/
def c2op : Operation :=
  { tx_id := 9, tx_type := .withdrawal, from_user_id := 3, to_user_id := 0
    amount := -7, timestamp := 11, status := .pending, description := S "fee" }

/-- First of two valid records sharing a tx_id. -/
def c3opA : Operation :=
  { tx_id := 1, tx_type := .deposit, from_user_id := 0, to_user_id := 5
    amount := 10, timestamp := 20, status := .success, description := S "a" }

/-- Second of two valid records sharing a tx_id (all other fields differ). -/
def c3opB : Operation :=
  { tx_id := 1, tx_type := .deposit, from_user_id := 0, to_user_id := 6
    amount := 11, timestamp := 21, status := .failure, description := S "b" }

/-- C1 (amended): for every machine-representable operation that passes
`validate` and whose description contains no double quote, backslash or
line feed and no leading/trailing whitespace, write-then-parse is the
identity on all eight fields in each of the three codecs; without that
description restriction the property fails, because binary write emits
the description raw while binary parse normalizes it. -/
theorem c1_roundtrip_amended {op : Operation} (hWF : op.WF)
    (hval : op.validate = .ok ()) (hsafe : safeDescB op.description = true) :
    (∀ bs, writeOperation op = .ok bs → parseOperation bs = .ok (op, [])) ∧
    (∃ bs, writeOperation op = .ok bs) ∧
    writeAllCsv [op] = .ok (HEADER ++ [10] ++ (csvLineOf op ++ [10])) ∧
    parseAllCsv (HEADER ++ [10] ++ (csvLineOf op ++ [10])) = .ok [op] ∧
    writeAllText [op] = .ok (textBlockOf op) ∧
    parseAllText (textBlockOf op) = .ok [op] := by
  refine ⟨?_, ⟨_, writeOperation_ok hval⟩, csvWrite_singleton hval,
    parseAllCsv_single hWF hval hsafe, textWrite_singleton hval,
    parseAllText_single hWF hval hsafe⟩
  intro bs hbs
  have := parseOperation_write hWF hval hsafe hbs []
  simpa using this

/-- Witness for C1: the three-codec roundtrip at a concrete record with a
Unicode description. -/
theorem c1_roundtrip_witness :
    (∀ bs, writeOperation c1wop = .ok bs → parseOperation bs = .ok (c1wop, [])) ∧
    (∃ bs, writeOperation c1wop = .ok bs) ∧
    writeAllCsv [c1wop] = .ok (HEADER ++ [10] ++ (csvLineOf c1wop ++ [10])) ∧
    parseAllCsv (HEADER ++ [10] ++ (csvLineOf c1wop ++ [10])) = .ok [c1wop] ∧
    writeAllText [c1wop] = .ok (textBlockOf c1wop) ∧
    parseAllText (textBlockOf c1wop) = .ok [c1wop] :=
  @c1_roundtrip_amended c1wop (by decide) (by decide) (by decide)

/-- Counterexample for C1 as claimed: a valid operation whose description
is backslash-n survives binary write but comes back from binary parse
with its description collapsed to a single newline character, so
write-then-parse is not the identity on all eight fields. -/
theorem c1_counterexample :
    (match writeOperation c1op with
     | .ok bs => parseOperation bs
     | .error e => .error e) =
      .ok ({ tx_id := 1, tx_type := .deposit, from_user_id := 0, to_user_id := 2,
             amount := 5, timestamp := 6, status := .success,
             description := [10] }, []) ∧
    c1op.description = [92, 110] ∧ ([10] : Str) ≠ [92, 110] := by
  decide

/-- C2 (amended): binary `parse_all` breaks out of its loop successfully
whenever `parse_operation` fails with the end-of-stream Io error, at ANY
read inside a record — not only at the first magic read: a full record
followed by any strict prefix of itself parses to just that record. -/
theorem c2_eof_break {op : Operation} (hWF : op.WF) (hval : op.validate = .ok ())
    (hsafe : safeDescB op.description = true) {bs : List Nat}
    (hbs : writeOperation op = .ok bs) {k : Nat} (hk : k < bs.length) :
    parseAllBin (bs ++ bs.take k) = .ok [op] := by
  have hfull : parseOperation (bs ++ bs.take k) = .ok (op, bs.take k) :=
    parseOperation_write hWF hval hsafe hbs _
  have hnil : parseOperation bs = .ok (op, []) := by
    have := parseOperation_write hWF hval hsafe hbs []
    simpa using this
  have heof : parseOperation (bs.take k) = .error .ioUnexpectedEof :=
    goodP_parseOperation.2 bs op hnil k hk
  unfold parseAllBin
  rw [parseAllBinAux_ok hfull, parseAllBinAux_eof heof]
  rfl

/-- Witness for C2: a written record followed by the first three bytes of
itself (a truncation inside the magic of a second record is excluded —
three bytes are a strict prefix of the record) parses to that record. -/
theorem c2_eof_break_witness :
    parseAllBin ((writeOperation c2op).toOption.getD [] ++
      ((writeOperation c2op).toOption.getD []).take 3) = .ok [c2op] :=
  @c2_eof_break c2op (by decide) (by decide) (by decide)
    ((writeOperation c2op).toOption.getD []) (by decide) 3 (by decide)

/-- Counterexample for C2 as claimed: a stream that ends right after the
four magic bytes — inside a record, after its first read already
succeeded — makes `parse_all` return a successful empty collection
instead of the propagated error the claim requires, because the loop
breaks on the end-of-stream Io error wherever it occurs. -/
theorem c2_counterexample :
    parseAllBin [0x59, 0x50, 0x42, 0x4E] = .ok [] ∧
    parseOperation [0x59, 0x50, 0x42, 0x4E] = .error .ioUnexpectedEof := by
  have hp : parseOperation [0x59, 0x50, 0x42, 0x4E] = .error .ioUnexpectedEof := by
    decide
  exact ⟨by unfold parseAllBin; exact parseAllBinAux_eof hp [], hp⟩

/-- C3 (amended): when two well-formed records share a tx_id, each codec's
parse_all returns exactly one record for that tx_id, and the retained
record is the FIRST one in input order — `HashSet::insert` keeps the
element already present — for the binary, CSV and text codecs alike. -/
theorem c3_first_wins {op1 op2 : Operation}
    (h1 : op1.WF) (hv1 : op1.validate = .ok ())
    (hs1 : safeDescB op1.description = true)
    (h2 : op2.WF) (hv2 : op2.validate = .ok ())
    (hs2 : safeDescB op2.description = true)
    (hid : op1.tx_id = op2.tx_id) :
    (∀ bs1 bs2, writeOperation op1 = .ok bs1 → writeOperation op2 = .ok bs2 →
      parseAllBin (bs1 ++ bs2) = .ok [op1]) ∧
    parseAllCsv (HEADER ++ [10] ++ (csvLineOf op1 ++ [10]) ++
      (csvLineOf op2 ++ [10])) = .ok [op1] ∧
    parseAllText (textBlockOf op1 ++ ([10] ++ textBlockOf op2)) = .ok [op1] := by
  have hmem1 : op1 ∈ [op1] := List.mem_singleton.mpr rfl
  refine ⟨?_, ?_, ?_⟩
  · intro bs1 bs2 hbs1 hbs2
    have hp1 : parseOperation (bs1 ++ bs2) = .ok (op1, bs2) :=
      parseOperation_write h1 hv1 hs1 hbs1 bs2
    have hp2 : parseOperation bs2 = .ok (op2, []) := by
      have := parseOperation_write h2 hv2 hs2 hbs2 []
      simpa using this
    unfold parseAllBin
    rw [parseAllBinAux_ok hp1, insertOp_nil, parseAllBinAux_ok hp2,
      insertOp_dup hmem1 hid, parseAllBinAux_eof (by decide)]
  · rw [parseAllCsv_header (linesOf_csvTwo hs1 hs2)]
    rw [csvGo_step trimStr_csvLineOf (parseLine_csvLineOf h1 hs1) hv1]
    rw [insertOp_nil]
    rw [csvGo_step trimStr_csvLineOf (parseLine_csvLineOf h2 hs2) hv2]
    rw [insertOp_dup hmem1 hid]
    rfl
  · obtain ⟨hm1, -, -⟩ := safeDescB_spec hs1
    obtain ⟨hm2, -, -⟩ := safeDescB_spec hs2
    unfold parseAllText
    rw [linesOf_textTwo hs1 hs2]
    rw [textGo_block]
    rw [textGo_blank_flush (show trimStr ([] : Str) = [] from rfl) stdRecordMap_nonempty
      (parseRecord_std h1 (fun c hc => (hm1 c hc).1)) hv1]
    rw [insertOp_nil]
    rw [show textLinesOf op2 = textLinesOf op2 ++ ([] : List Str) by simp]
    rw [textGo_block]
    rw [textGo_end_flush stdRecordMap_nonempty
      (parseRecord_std h2 (fun c hc => (hm2 c hc).1)) hv2]
    rw [insertOp_dup hmem1 hid]

/-- Witness for C3: the first-wins duplicate collapse at two concrete
records with tx_id 1, in all three codecs. -/
theorem c3_first_wins_witness :
    parseAllBin ((writeOperation c3opA).toOption.getD [] ++
      (writeOperation c3opB).toOption.getD []) = .ok [c3opA] ∧
    parseAllCsv (HEADER ++ [10] ++ (csvLineOf c3opA ++ [10]) ++
      (csvLineOf c3opB ++ [10])) = .ok [c3opA] ∧
    parseAllText (textBlockOf c3opA ++ ([10] ++ textBlockOf c3opB)) = .ok [c3opA] := by
  have h := @c3_first_wins c3opA c3opB (by decide) (by decide) (by decide)
    (by decide) (by decide) (by decide) (by decide)
  exact ⟨h.1 _ _ (by decide) (by decide), h.2.1, h.2.2⟩

/-- Counterexample for C3 as claimed: two CSV data lines share tx_id 1 but
differ in every other field; the parsed collection holds the FIRST record
(to_user_id 5, amount 10, SUCCESS), not the later one. -/
theorem c3_counterexample :
    parseAllCsv (S "TX_ID,TX_TYPE,FROM_USER_ID,TO_USER_ID,AMOUNT,TIMESTAMP,STATUS,DESCRIPTION\n1,DEPOSIT,0,5,10,20,SUCCESS,\"a\"\n1,DEPOSIT,0,6,11,21,FAILURE,\"b\"\n") =
      .ok [{ tx_id := 1, tx_type := .deposit, from_user_id := 0, to_user_id := 5,
             amount := 10, timestamp := 20, status := .success,
             description := S "a" }] := by
  decide

/-- C4 (amended): the DESCRIPTION field of the CSV and text codecs has
ALL leading and ALL trailing double-quote characters stripped
(`trim_matches`, each end independently, however many layers), with no
unescaping and no other transformation: a bare value wrapped in any
numbers of quote layers parses back to the bare value. In particular a
doubly quoted value loses both layers, not just the outer one. -/
theorem c4_all_quotes_stripped (d : Str) (k1 k2 : Nat)
    (hd : ∀ c ∈ d, c ≠ 34 ∧ c ≠ 44) (hne : d ≠ []) :
    parseLine (S "1,DEPOSIT,0,0,5,5,SUCCESS," ++
        (List.replicate k1 34 ++ d ++ List.replicate k2 34)) =
      .ok { tx_id := 1, tx_type := .deposit, from_user_id := 0, to_user_id := 0,
            amount := 5, timestamp := 5, status := .success, description := d } ∧
    parseRecord (c4TextMap (List.replicate k1 34 ++ d ++ List.replicate k2 34)) =
      .ok { tx_id := 1, tx_type := .deposit, from_user_id := 0, to_user_id := 0,
            amount := 5, timestamp := 5, status := .success, description := d } := by
  have hq : trimMatchesQuote (List.replicate k1 34 ++ d ++ List.replicate k2 34) = d :=
    trimMatchesQuote_eq hne
      (fun hc => absurd rfl (hd 34 (head?_mem hc)).1)
      (fun hc => absurd rfl (hd 34 (getLast?_mem hc)).1)
  constructor
  · have hsplit : splitCsvLine (S "1,DEPOSIT,0,0,5,5,SUCCESS," ++
        (List.replicate k1 34 ++ d ++ List.replicate k2 34)) =
        [S "1", S "DEPOSIT", S "0", S "0", S "5", S "5", S "SUCCESS",
         List.replicate k1 34 ++ d ++ List.replicate k2 34] := by
      unfold splitCsvLine
      rw [show S "1,DEPOSIT,0,0,5,5,SUCCESS," ++
          (List.replicate k1 34 ++ d ++ List.replicate k2 34) =
          S "1" ++ 44 :: (S "DEPOSIT" ++ 44 :: (S "0" ++ 44 :: (S "0" ++ 44 ::
          (S "5" ++ 44 :: (S "5" ++ 44 :: (S "SUCCESS" ++ 44 ::
          (List.replicate k1 34 ++ d ++ List.replicate k2 34))))))) from rfl]
      rw [splitCsv_field (by decide), splitCsv_field (by decide),
        splitCsv_field (by decide), splitCsv_field (by decide),
        splitCsv_field (by decide), splitCsv_field (by decide),
        splitCsv_field (by decide)]
      rw [splitCsvAux_nocomma _ (fun c hc => by
        rcases List.mem_append.mp hc with hc2 | hc2
        · rcases List.mem_append.mp hc2 with hc3 | hc3
          · have := List.eq_of_mem_replicate hc3
            omega
          · exact (hd c hc3).2
        · have := List.eq_of_mem_replicate hc2
          omega)]
      simp
    unfold parseLine
    rw [hsplit]
    dsimp only
    rw [show parseU64 (S "1") = Except.ok 1 from by decide]
    dsimp only
    rw [show OperationType.fromStr (S "DEPOSIT") = Except.ok .deposit from by decide]
    dsimp only
    rw [show parseU64 (S "0") = Except.ok 0 from by decide]
    dsimp only
    rw [show parseI64 (S "5") = Except.ok 5 from by decide]
    dsimp only
    rw [show parseU64 (S "5") = Except.ok 5 from by decide]
    dsimp only
    rw [show OperationStatus.fromStr (S "SUCCESS") = Except.ok .success from by decide]
    dsimp only
    rw [hq]
  · rw [parseRecord_c4, hq]

/-- Witness for C4: a doubly quoted one-character value loses both quote
layers in both the CSV line parser and the text record parser. -/
theorem c4_all_quotes_stripped_witness :
    parseLine (S "1,DEPOSIT,0,0,5,5,SUCCESS," ++
        (List.replicate 2 34 ++ S "a" ++ List.replicate 2 34)) =
      .ok { tx_id := 1, tx_type := .deposit, from_user_id := 0, to_user_id := 0,
            amount := 5, timestamp := 5, status := .success,
            description := S "a" } ∧
    parseRecord (c4TextMap (List.replicate 2 34 ++ S "a" ++ List.replicate 2 34)) =
      .ok { tx_id := 1, tx_type := .deposit, from_user_id := 0, to_user_id := 0,
            amount := 5, timestamp := 5, status := .success,
            description := S "a" } :=
  c4_all_quotes_stripped (S "a") 2 2 (by decide) (by decide)

/-- Counterexample for C4 as claimed: the CSV description `""a""` parses
to the bare `a`, not to the inner layer `"a"` the claim predicts. -/
theorem c4_counterexample :
    parseLine (S "1,DEPOSIT,0,0,5,5,SUCCESS,\"\"a\"\"") =
      .ok { tx_id := 1, tx_type := .deposit, from_user_id := 0, to_user_id := 0,
            amount := 5, timestamp := 5, status := .success,
            description := S "a" } ∧
    S "a" ≠ S "\"a\"" := by
  decide

/-- C5 (amended): inside `parse_line` a numeric-field failure is an
InvalidField error naming the field and the Rust ParseIntError
diagnostic, but CSV `parse_all` does not pass that error to its caller:
it wraps the Display of every `parse_line` error into an InvalidFormat
error labelled with the line number. -/
theorem c5_error_wrapping {l : Str} {e : ParseError} (h10 : 10 ∉ l)
    (h13 : l.getLast? ≠ some 13) (hne : trimStr l ≠ [])
    (hpl : parseLine l = .error e) :
    parseAllCsv ((HEADER ++ [10]) ++ (l ++ [10])) =
      .error (.invalidFormat (S "Line " ++ natToStr 2 ++ S ": " ++ displayErr e)) ∧
    (∀ (s : Str) (r : Str), (∀ c ∈ s, c ≠ 34 ∧ c ≠ 44) → parseU64 s = .error r →
      parseLine (s ++ S ",DEPOSIT,0,0,5,5,SUCCESS,d") =
        .error (.invalidField (S "TX_ID") r)) := by
  constructor
  · have hlines : linesOf ((HEADER ++ [10]) ++ (l ++ [10])) = [HEADER, l] := by
      rw [show (HEADER ++ [10]) ++ (l ++ [10]) =
          (([HEADER, l]).map (fun x => x ++ [10])).flatten from by simp]
      apply linesOf_concat
      intro x hx
      rcases List.mem_cons.mp hx with rfl | hx2
      · exact ⟨by decide, by decide⟩
      · rcases List.mem_cons.mp hx2 with rfl | hx3
        · exact ⟨h10, h13⟩
        · simp at hx3
    rw [parseAllCsv_header hlines]
    rw [csvGo_err hne hpl]
  · intro s r hs hu
    have hsplit : splitCsvLine (s ++ S ",DEPOSIT,0,0,5,5,SUCCESS,d") =
        [s, S "DEPOSIT", S "0", S "0", S "5", S "5", S "SUCCESS", S "d"] := by
      unfold splitCsvLine
      rw [show s ++ S ",DEPOSIT,0,0,5,5,SUCCESS,d" =
          s ++ 44 :: (S "DEPOSIT" ++ 44 :: (S "0" ++ 44 :: (S "0" ++ 44 ::
          (S "5" ++ 44 :: (S "5" ++ 44 :: (S "SUCCESS" ++ 44 :: S "d")))))) from rfl]
      rw [splitCsv_field hs]
      rw [show splitCsvAux (S "DEPOSIT" ++ 44 :: (S "0" ++ 44 :: (S "0" ++ 44 ::
          (S "5" ++ 44 :: (S "5" ++ 44 :: (S "SUCCESS" ++ 44 :: S "d")))))) false [] =
          [S "DEPOSIT", S "0", S "0", S "5", S "5", S "SUCCESS", S "d"] from by decide]
    unfold parseLine
    rw [hsplit]
    dsimp only
    rw [hu]

/-- Witness for C5: the wrapped and the field-level error at a concrete
bad TX_ID. -/
theorem c5_error_wrapping_witness :
    parseAllCsv ((HEADER ++ [10]) ++ (S "abc,DEPOSIT,0,0,5,5,SUCCESS,d" ++ [10])) =
      .error (.invalidFormat (S "Line " ++ natToStr 2 ++ S ": " ++
        displayErr (.invalidField (S "TX_ID") msgInvalidDigit))) ∧
    (∀ (s : Str) (r : Str), (∀ c ∈ s, c ≠ 34 ∧ c ≠ 44) → parseU64 s = .error r →
      parseLine (s ++ S ",DEPOSIT,0,0,5,5,SUCCESS,d") =
        .error (.invalidField (S "TX_ID") r)) :=
  c5_error_wrapping (by decide) (by decide) (by decide) (by decide)

/-- Counterexample for C5 as claimed: with a non-numeric TX_ID the
caller of CSV `parse_all` receives an InvalidFormat error embedding the
rendered message, although `parse_line` itself produced the InvalidField
error. -/
theorem c5_counterexample :
    parseAllCsv (S "TX_ID,TX_TYPE,FROM_USER_ID,TO_USER_ID,AMOUNT,TIMESTAMP,STATUS,DESCRIPTION\nabc,DEPOSIT,0,0,5,5,SUCCESS,d\n") =
      .error (.invalidFormat (S "Line 2: Invalid field " ++ [39] ++ S "TX_ID" ++
        [39] ++ S ": invalid digit found in string")) ∧
    parseLine (S "abc,DEPOSIT,0,0,5,5,SUCCESS,d") =
      .error (.invalidField (S "TX_ID") msgInvalidDigit) := by
  decide

/-- C8: validation is applied in both directions by every codec: each
operation in any successfully parsed collection satisfies the invariant
(binary, CSV and text parse_all), and each serializer refuses a
collection containing an invalid operation with an InvalidField error
(write_operation and the three write_all functions). -/
theorem c8_bidirectional_validation :
    (∀ (s : List Nat) (ops : List Operation), parseAllBin s = .ok ops →
      ∀ o ∈ ops, o.validate = .ok ()) ∧
    (∀ (s : List Nat) (ops : List Operation), parseAllCsv s = .ok ops →
      ∀ o ∈ ops, o.validate = .ok ()) ∧
    (∀ (s : List Nat) (ops : List Operation), parseAllText s = .ok ops →
      ∀ o ∈ ops, o.validate = .ok ()) ∧
    (∀ op : Operation, op.validate ≠ .ok () →
      ∃ f r, writeOperation op = .error (.invalidField f r)) ∧
    (∀ ops : List Operation, (∃ o ∈ ops, o.validate ≠ .ok ()) →
      (∃ f r, writeAllBin ops = .error (.invalidField f r)) ∧
      (∃ f r, writeAllCsv ops = .error (.invalidField f r)) ∧
      (∃ f r, writeAllText ops = .error (.invalidField f r))) :=
  ⟨fun _ _ h => parseAllBin_validates h,
   fun _ _ h => parseAllCsv_validates h,
   fun _ _ h => parseAllText_validates h,
   fun _ h => writeOperation_invalid h,
   fun ops h => ⟨writeAllBin_invalid ops h, writeAllCsv_invalid h, writeAllText_invalid h⟩⟩

/-- C6: binary description normalization is exactly trim, then one
conditional quote-strip (only when the trimmed string starts and ends
with a double quote and has length at least 2), then unescape, where the
unescape rewrites the five recognized escapes (\" \\ \n \t \r) and keeps
the backslash of an unrecognized escape literally without consuming the
following character, and non-backslash characters pass through. -/
theorem c6_normalization_pipeline :
    (∀ s : Str, normalizeDescription s = unescapeStr (stripQuotes (trimStr s))) ∧
    (∀ s : Str, s.head? = some 34 → s.getLast? = some 34 → 2 ≤ s.length →
      stripQuotes s = (s.drop 1).dropLast) ∧
    (∀ s : Str, ¬(s.head? = some 34 ∧ s.getLast? = some 34 ∧ 2 ≤ s.length) →
      stripQuotes s = s) ∧
    (∀ rest : Str, unescapeStr (92 :: 34 :: rest) = 34 :: unescapeStr rest) ∧
    (∀ rest : Str, unescapeStr (92 :: 92 :: rest) = 92 :: unescapeStr rest) ∧
    (∀ rest : Str, unescapeStr (92 :: 110 :: rest) = 10 :: unescapeStr rest) ∧
    (∀ rest : Str, unescapeStr (92 :: 116 :: rest) = 9 :: unescapeStr rest) ∧
    (∀ rest : Str, unescapeStr (92 :: 114 :: rest) = 13 :: unescapeStr rest) ∧
    (∀ (c : Nat) (rest : Str), c ≠ 34 → c ≠ 92 → c ≠ 110 → c ≠ 116 → c ≠ 114 →
      unescapeStr (92 :: c :: rest) = 92 :: unescapeStr (c :: rest)) ∧
    unescapeStr [92] = [92] ∧
    (∀ (c : Nat) (rest : Str), c ≠ 92 → unescapeStr (c :: rest) = c :: unescapeStr rest) := by
  refine ⟨fun s => rfl, ?_, ?_, fun rest => rfl, fun rest => rfl, fun rest => rfl,
    fun rest => rfl, fun rest => rfl, ?_, rfl, ?_⟩
  · intro s h1 h2 h3
    unfold stripQuotes
    rw [if_pos ⟨h1, h2, h3⟩]
  · intro s h
    exact stripQuotes_eq_self h
  · intro c rest h34 h92 h110 h116 h114
    rw [unescapeStr.eq_def]
    dsimp only
    rw [if_pos rfl, if_neg h34, if_neg h92, if_neg h110, if_neg h116, if_neg h114]
  · intro c rest h92
    rw [unescapeStr.eq_def]
    dsimp only
    rw [if_neg h92]

/-- C7: `Operation::validate` succeeds exactly when the type-dependent
identifier invariant holds (DEPOSIT needs from_user_id = 0, WITHDRAWAL
needs to_user_id = 0, TRANSFER needs both identifiers non-zero), with the
values of amount, timestamp and description playing no role; when it
fails, the error is an InvalidField value. -/
theorem c7_validate_invariant :
    ∀ op : Operation,
      ((op.validate = .ok ()) ↔
        (match op.tx_type with
         | .deposit => op.from_user_id = 0
         | .withdrawal => op.to_user_id = 0
         | .transfer => op.from_user_id ≠ 0 ∧ op.to_user_id ≠ 0)) ∧
      (op.validate = .ok () ∨ ∃ f r, op.validate = .error (.invalidField f r)) := by
  intro op
  obtain ⟨i, ty, f, t, a, m, s, d⟩ := op
  cases ty
  · refine ⟨?_, ?_⟩
    · by_cases hf : f = 0 <;> simp [Operation.validate, hf]
    · by_cases hf : f = 0
      · exact Or.inl (by simp [Operation.validate, hf])
      · exact Or.inr ⟨S "FROM_USER_ID", S "Must be 0 for DEPOSIT",
          by simp [Operation.validate, hf]⟩
  · refine ⟨?_, ?_⟩
    · by_cases h : f = 0 ∨ t = 0
      · simp only [Operation.validate]
        rw [if_pos h]
        constructor
        · intro he
          exact Except.noConfusion he
        · rintro ⟨h1, h2⟩
          rcases h with h | h
          · exact absurd h h1
          · exact absurd h h2
      · simp only [Operation.validate]
        rw [if_neg h]
        push_neg at h
        constructor
        · intro hu
          exact ⟨h.1, h.2⟩
        · intro hu
          rfl
    · by_cases h : f = 0 ∨ t = 0
      · exact Or.inr ⟨_, _, by simp only [Operation.validate]; rw [if_pos h]⟩
      · exact Or.inl (by simp only [Operation.validate]; rw [if_neg h])
  · refine ⟨?_, ?_⟩
    · by_cases ht : t = 0 <;> simp [Operation.validate, ht]
    · by_cases ht : t = 0
      · exact Or.inl (by simp [Operation.validate, ht])
      · exact Or.inr ⟨S "TO_USER_ID", S "Must be 0 for WITHDRAWAL",
          by simp [Operation.validate, ht]⟩

/-- C9 (amended): a line whose trimmed content starts with the character
'#' is skipped by the text parse loop without being accumulated, but it
does NOT act as a record separator: the current record accumulator and the
result set pass through unchanged, so key-value lines before and after it
belong to the SAME record (only a blank line, or the end of input,
flushes). -/
theorem c9_comment_skipped {line : Str} (hne : trimStr line ≠ [])
    (hhash : (trimStr line).head? = some 35) (rest : List Str)
    (cur : List (Str × Str)) (ops : List Operation) :
    textGo (line :: rest) cur ops = textGo rest cur ops := by
  rw [textGo.eq_def]
  dsimp only
  rw [if_pos (Or.inr hhash)]
  rw [if_neg (fun h => hne h.2)]

/-- Witness for C9: a comment line between key-value lines leaves a
nonempty accumulator untouched. -/
theorem c9_comment_skipped_witness :
    textGo [S " # note", S "TX_ID: 1"] [(S "AMOUNT", S "5")] [] =
      textGo [S "TX_ID: 1"] [(S "AMOUNT", S "5")] [] :=
  c9_comment_skipped (by decide) (by decide) _ _ _

/-- Counterexample for C9 as claimed: two complete 8-key blocks separated
only by a '#' line parse to a SINGLE record (the second block's values
overwrite the first's in the shared accumulator), not to two records. -/
theorem c9_counterexample :
    parseAllText (S "TX_ID: 1\nTX_TYPE: DEPOSIT\nFROM_USER_ID: 0\nTO_USER_ID: 2\nAMOUNT: 5\nTIMESTAMP: 6\nSTATUS: SUCCESS\nDESCRIPTION: \"a\"\n# comment\nTX_ID: 7\nTX_TYPE: DEPOSIT\nFROM_USER_ID: 0\nTO_USER_ID: 8\nAMOUNT: 9\nTIMESTAMP: 10\nSTATUS: FAILURE\nDESCRIPTION: \"b\"\n") =
      .ok [{ tx_id := 7, tx_type := .deposit, from_user_id := 0, to_user_id := 8,
             amount := 9, timestamp := 10, status := .failure,
             description := S "b" }] := by
  decide

/-- C10: the quote-stripping step of binary description normalization is
the identity on every string of length below 2; in particular a
description that is a lone double-quote character survives normalization
unchanged (the single character is not treated as both the leading and
the trailing quote). -/
theorem c10_lone_quote_kept :
    (∀ s : Str, s.length < 2 → stripQuotes s = s) ∧
    normalizeDescription [34] = [34] := by
  constructor
  · intro s h
    apply stripQuotes_eq_self
    rintro ⟨-, -, h2⟩
    omega
  · decide

end RustParser
